import Mathlib

/-!
Verification development for the eat-safe ETL pipeline.

The development shallowly embeds the two core programs of the repository:

- the streaming extractor (inspection-data/extract_filtered_csv.py), which
  normalizes one raw denormalized CSV into three related record streams with
  synthesized keys and deduplication, and

- the dependency-ordered loader
  (backend/api/management/commands/import_inspection_csvs.py), which upserts
  the three streams into storage in the order
  Restaurant, Inspection, Violation with strict/lenient row-failure policy
  and per-phase transactions.

Machine strings are modelled as Lean String values manipulated through their
underlying character lists, Python dates as validated year/month/day triples,
and the database tables of the loader as functions from primary key to an
optional record.  All definitions are executable.
-/

/-! ## Character and string utilities (Python built-in behavior) -/

/-- Whitespace characters stripped by the Python str.strip method (ASCII
subset: space, tab, newline, carriage return, vertical tab, form feed). -/
def isPyWS (c : Char) : Bool :=
  c = ' ' || c = '\t' || c = '\n' || c = '\r' || c = Char.ofNat 11 || c = Char.ofNat 12

/-- Remove leading and trailing Python whitespace from a character list. -/
def trimChars (l : List Char) : List Char :=
  ((l.dropWhile isPyWS).reverse.dropWhile isPyWS).reverse

/-- Python str.strip with no argument, restricted to ASCII whitespace. -/
def pyStrip (s : String) : String :=
  ⟨trimChars s.data⟩

/-- Python slicing s[:n] on a string: the first n characters. -/
def strTake (s : String) (n : Nat) : String :=
  ⟨s.data.take n⟩

/-- Uppercase an ASCII letter, as Python str.upper does on ASCII input. -/
def charUpperAscii (c : Char) : Char :=
  if 'a' ≤ c ∧ c ≤ 'z' then Char.ofNat (c.toNat - 32) else c

/-- Lowercase an ASCII letter, as Python str.lower does on ASCII input. -/
def charLowerAscii (c : Char) : Char :=
  if 'A' ≤ c ∧ c ≤ 'Z' then Char.ofNat (c.toNat + 32) else c

/-- Python str.upper restricted to ASCII letters. -/
def pyUpper (s : String) : String :=
  ⟨s.data.map charUpperAscii⟩

/-- Python str.title restricted to ASCII: a letter that follows a non-letter
is uppercased, every other letter is lowercased. -/
def pyTitleGo : Bool → List Char → List Char
  | _, [] => []
  | prevAlpha, c :: cs =>
      if c.isAlpha then
        (if prevAlpha then charLowerAscii c else charUpperAscii c) :: pyTitleGo true cs
      else
        c :: pyTitleGo false cs

/-- Python str.title restricted to ASCII letters. -/
def pyTitle (s : String) : String :=
  ⟨pyTitleGo false s.data⟩

/-- Split a character list at every occurrence of the separator character,
like the Python str.split method with a one-character separator.  The result
is always nonempty. -/
def splitOnChar (sep : Char) : List Char → List (List Char)
  | [] => [[]]
  | c :: cs =>
      match splitOnChar sep cs with
      | [] => [[c]]
      | h :: t => if c = sep then [] :: h :: t else (c :: h) :: t

/-- Value of a nonempty list of decimal digits, if all characters are digits. -/
def digitsToNat : List Char → Option Nat
  | [] => none
  | l => l.foldl (fun acc c => match acc with
      | none => none
      | some n => if c.isDigit then some (n * 10 + (c.toNat - 48)) else none)
      (some 0)

/-- Python int(s) on a stripped string: an optional sign followed by at least
one decimal digit; anything else raises, modelled as none. -/
def parseIntPy (s : String) : Option Int :=
  match trimChars s.data with
  | [] => none
  | '+' :: ds => (digitsToNat ds).map Int.ofNat
  | '-' :: ds => (digitsToNat ds).map (fun n => -(Int.ofNat n))
  | ds => (digitsToNat ds).map Int.ofNat

/-! ## Dates (Python datetime.date) -/

/-- Calendar date as used by the pipeline. -/
structure MDate where
  year : Nat
  month : Nat
  day : Nat
deriving DecidableEq, Repr

/-- Leap year rule of the Gregorian calendar, as in Python datetime. -/
def isLeap (y : Nat) : Bool :=
  (y % 4 = 0 && y % 100 ≠ 0) || y % 400 = 0

/-- Number of days in a month, as validated by the Python date constructor. -/
def daysInMonth (y m : Nat) : Nat :=
  if m = 1 ∨ m = 3 ∨ m = 5 ∨ m = 7 ∨ m = 8 ∨ m = 10 ∨ m = 12 then 31
  else if m = 4 ∨ m = 6 ∨ m = 9 ∨ m = 11 then 30
  else if isLeap y then 29 else 28

/-- Validity check performed by the Python date constructor. -/
def validYMD (y m d : Nat) : Bool :=
  1 ≤ y && y ≤ 9999 && 1 ≤ m && m ≤ 12 && 1 ≤ d && d ≤ daysInMonth y m

/-- Encode a date as a single natural number so that comparison of encodings
agrees with the lexicographic comparison of valid dates. -/
def dKey (d : MDate) : Nat :=
  d.year * 10000 + d.month * 100 + d.day

/-- Zero-pad a natural number to two digits. -/
def pad2 (n : Nat) : String :=
  if n < 10 then "0" ++ Nat.repr n else Nat.repr n

/-- Zero-pad a natural number to four digits. -/
def pad4 (n : Nat) : String :=
  if n < 10 then "000" ++ Nat.repr n
  else if n < 100 then "00" ++ Nat.repr n
  else if n < 1000 then "0" ++ Nat.repr n
  else Nat.repr n

/-- ISO-8601 rendering of a date, as the Python date.isoformat method. -/
def isoStr (d : MDate) : String :=
  pad4 d.year ++ "-" ++ pad2 d.month ++ "-" ++ pad2 d.day

/-- Build a date from parsed integer components, validating as the Python
date constructor does (it raises on out-of-range values, modelled as none). -/
def mkDate (y m d : Int) : Option MDate :=
  if 0 ≤ y ∧ 0 ≤ m ∧ 0 ≤ d ∧ validYMD y.toNat m.toNat d.toNat then
    some ⟨y.toNat, m.toNat, d.toNat⟩
  else none

/-- Embedding of parse_date_mdy from extract_filtered_csv.py: strip, keep the
text before the first space (discarding a time-of-day suffix), split on the
slash character into exactly three components, convert each with int, and
validate through the date constructor.  Any failure yields none. -/
def parseDateMDY (s : String) : Option MDate :=
  match trimChars s.data with
  | [] => none
  | v =>
      let v1 := v.takeWhile (fun c => c ≠ ' ')
      match splitOnChar '/' v1 with
      | [ms, ds, ys] =>
          match parseIntPy ⟨ms⟩, parseIntPy ⟨ds⟩, parseIntPy ⟨ys⟩ with
          | some m, some d, some y => mkDate y m d
          | _, _, _ => none
      | _ => none

/-- Parse an ISO YYYY-MM-DD date as the Python date.fromisoformat method on
its canonical input shape: exactly three dash-separated all-digit groups of
width four, two and two, validated as a calendar date. -/
def parseIsoDate (s : String) : Option MDate :=
  match splitOnChar '-' s.data with
  | [ys, ms, ds] =>
      if ys.length = 4 ∧ ms.length = 2 ∧ ds.length = 2 then
        match digitsToNat ys, digitsToNat ms, digitsToNat ds with
        | some y, some m, some d => if validYMD y m d then some ⟨y, m, d⟩ else none
        | _, _, _ => none
      else none
  | _ => none

/-! ## Field normalizer (extract_filtered_csv.py) -/

/-- Translation table applied by sanitize_text: smart quotes and dashes are
mapped to ASCII equivalents. -/
def translatePunct (c : Char) : Char :=
  if c.toNat = 0x2018 ∨ c.toNat = 0x2019 then '\''
  else if c.toNat = 0x201C ∨ c.toNat = 0x201D then '\"'
  else if c.toNat = 0x2014 ∨ c.toNat = 0x2013 then '-'
  else c

/-- Collapse every maximal run of spaces to a single space, as the regex
substitution of one-or-more whitespace with a single space does after all
ASCII whitespace has already been turned into plain spaces. -/
def collapseGo : Bool → List Char → List Char
  | _, [] => []
  | prev, c :: cs =>
      if c = ' ' then
        (if prev then collapseGo true cs else ' ' :: collapseGo true cs)
      else c :: collapseGo false cs

/-- Collapse internal whitespace runs to single spaces. -/
def collapseWS (l : List Char) : List Char :=
  collapseGo false l

/-- Embedding of sanitize_text from extract_filtered_csv.py, in the order of
the source: replace the no-break space, replace carriage return and newline,
replace remaining control characters with spaces, translate smart
punctuation, optionally strip non-ASCII characters (the NFKD normalization
preceding the ASCII encode is the identity on the ASCII and non-decomposable
characters handled here), collapse whitespace runs, and strip. -/
def sanitizeText (asciiOnly : Bool) (s : String) : String :=
  let l1 := s.data.map (fun c => if c.toNat = 0xA0 then ' ' else c)
  let l2 := l1.map (fun c => if c = '\r' ∨ c = '\n' then ' ' else c)
  let l3 := l2.map (fun c => if c.toNat ≤ 0x1f ∨ c.toNat = 0x7f then ' ' else c)
  let l4 := l3.map translatePunct
  let l5 := if asciiOnly then l4.filter (fun c => c.toNat ≤ 0x7f) else l4
  ⟨trimChars (collapseWS l5)⟩

/-- Canonical borough names of the data model. -/
def canonicalBoros : List String :=
  ["Manhattan", "Bronx", "Brooklyn", "Queens", "Staten Island"]

/-- Alias table BOROUGH_CHOICES of extract_filtered_csv.py. -/
def boroughChoices : List (String × String) :=
  [("MANHATTAN", "Manhattan"), ("BRONX", "Bronx"), ("BROOKLYN", "Brooklyn"),
   ("QUEENS", "Queens"), ("STATEN ISLAND", "Staten Island"),
   ("STATEN_ISLAND", "Staten Island"), ("STATEN-ISLAND", "Staten Island"),
   ("STATENISLAND", "Staten Island"), ("ST. GEORGE", "Staten Island")]

/-- Lookup in an association list of strings. -/
def lookupStr : List (String × String) → String → Option String
  | [], _ => none
  | (k, v) :: t, q => if k = q then some v else lookupStr t q

/-- Embedding of normalize_boro: empty input yields none; a stripped value
equal to a canonical name is returned as is; otherwise the value is
uppercased, slashes become spaces, whitespace is stripped and collapsed, and
the result is looked up among the known aliases; unmappable input yields
none. -/
def normalizeBoro (value : String) : Option String :=
  if value = "" then none
  else
    let v := pyStrip value
    if v ∈ canonicalBoros then some v
    else
      let up := pyStrip ⟨(pyUpper v).data.map (fun c => if c = '/' then ' ' else c)⟩
      lookupStr boroughChoices ⟨collapseWS up.data⟩

/-- Embedding of clean_phone: keep only decimal digits and at most twenty of
them; no digits yields the empty string. -/
def cleanPhone (value : String) : String :=
  ⟨(value.data.filter Char.isDigit).take 20⟩

/-- Embedding of normalize_grade: strip and keep at most two characters. -/
def normalizeGrade (value : String) : String :=
  strTake (pyStrip value) 2

/-! ## Streaming extractor (extract_filtered_csv.py, main) -/

/-- Raw input row of the DOHMH CSV, projected to the columns the extractor
reads.  A missing column and an empty value are identified, because every
read in the source coalesces None to the empty string. -/
structure RawRow where
  camis : String
  dba : String
  boro : String
  building : String
  street : String
  zipcode : String
  phone : String
  cuisine : String
  inspectionDate : String
  inspectionType : String
  action : String
  score : String
  grade : String
  gradeDate : String
  violationCode : String
  violationDescription : String
  criticalFlag : String
deriving DecidableEq, Repr

/-- Extractor configuration: the parsed command line. -/
structure ExtConfig where
  startDate : MDate
  endDate : MDate
  asciiOnly : Bool
  limit : Option Int
  maxRestaurants : Option Int
  maxInspections : Option Int
  maxViolations : Option Int
deriving DecidableEq, Repr

/-- Composite deduplication key of an inspection: restaurant key, inspection
date, inspection type, action, score as text, grade, grade date, all after
normalization.  The source uses a 7-tuple; named fields stand for the tuple
positions. -/
structure InspKey where
  camis : String
  dateIso : String
  inspectionType : String
  action : String
  scoreStr : String
  grade : String
  gradeDateIso : String
deriving DecidableEq, Repr

/-- Output record of restaurants.csv. -/
structure RestRow where
  camis : String
  name : String
  boro : String
  building : String
  street : String
  zipcode : String
  phone : String
  cuisine : String
deriving DecidableEq, Repr

/-- Output record of inspections.csv. -/
structure InspRow where
  id : Nat
  restrauntCamis : String
  inspectionDate : String
  inspectionType : String
  action : String
  score : String
  grade : String
  gradeDate : String
deriving DecidableEq, Repr

/-- Output record of violations.csv. -/
structure ViolRow where
  id : Nat
  inspectionId : Nat
  code : String
  description : String
  criticalFlag : String
deriving DecidableEq, Repr

/-- Mutable state of the extraction loop: the dedup trackers, the two
identifier counters, the counters of the stats dictionary, and the three
output streams. -/
structure ExtState where
  scanned : Nat
  limited : Bool
  dateFilteredOut : Nat
  boroFilteredOut : Nat
  restaurantsWritten : Nat
  inspectionsWritten : Nat
  violationsWritten : Nat
  seen : List String
  idx : List (InspKey × Nat)
  nextInspId : Nat
  nextViolId : Nat
  restOut : List RestRow
  inspOut : List InspRow
  violOut : List ViolRow
deriving DecidableEq, Repr

/-- Initial extraction state. -/
def initExtState : ExtState :=
  ⟨0, false, 0, 0, 0, 0, 0, [], [], 1, 1, [], [], []⟩

/-- Lookup in the inspection dedup index. -/
def lookupIdx : List (InspKey × Nat) → InspKey → Option Nat
  | [], _ => none
  | (k, i) :: t, q => if k = q then some i else lookupIdx t q

/-- Restaurant cap check: true when a new restaurant may not be admitted. -/
def restCapReached (cfg : ExtConfig) (s : ExtState) : Bool :=
  match cfg.maxRestaurants with
  | none => false
  | some m => decide (m ≤ (s.seen.length : Int))

/-- Inspection cap check against the written-inspections counter. -/
def inspCapReached (cfg : ExtConfig) (s : ExtState) : Bool :=
  match cfg.maxInspections with
  | none => false
  | some m => decide (m ≤ (s.inspectionsWritten : Int))

/-- Violation cap check against the written-violations counter. -/
def violCapReached (cfg : ExtConfig) (s : ExtState) : Bool :=
  match cfg.maxViolations with
  | none => false
  | some m => decide (m ≤ (s.violationsWritten : Int))

/-- Date range test of the extraction loop (inclusive on both ends). -/
def dateInRange (cfg : ExtConfig) (d : MDate) : Bool :=
  decide (dKey cfg.startDate ≤ dKey d) && decide (dKey d ≤ dKey cfg.endDate)

/-- Rendering of the optional integer score as text, as the source does
before building the dedup key. -/
def scoreStrOf (r : RawRow) : String :=
  match parseIntPy r.score with
  | none => ""
  | some n => toString n

/-- ISO rendering of the optional grade date, empty when absent. -/
def gradeDateIsoOf (r : RawRow) : String :=
  match parseDateMDY r.gradeDate with
  | none => ""
  | some gd => isoStr gd

/-- Composite inspection key computed by the extraction loop for one row. -/
def inspKeyOf (r : RawRow) (camis : String) (d : MDate) : InspKey :=
  ⟨camis, isoStr d, pyStrip r.inspectionType, pyStrip r.action,
   scoreStrOf r, normalizeGrade r.grade, gradeDateIsoOf r⟩

/-- Per-row outcome of the extraction loop, reifying its continue branches:
the row was dropped by the date filter, dropped because camis, name or
borough could not be validated, dropped because it named a new restaurant
while the restaurant cap was reached, dropped because it formed a new
inspection key while the inspection cap was reached, or fully processed
under the given composite key and inspection identifier. -/
inductive ExtOutcome where
  | droppedDate : ExtOutcome
  | droppedInvalid : ExtOutcome
  | droppedRestCap : ExtOutcome
  | droppedInspCap : ExtOutcome
  | processed : InspKey → Nat → ExtOutcome
deriving DecidableEq, Repr

/-- Violation stage of the extraction loop: when the row carries a violation
code, description or critical flag, normalize the critical flag to the model
choices, and unless the violation cap is reached emit a Violation record tied
to the given inspection identifier with a freshly issued identifier. -/
def stageViolation (cfg : ExtConfig) (s : ExtState) (r : RawRow) (inspId : Nat) : ExtState :=
  let code := pyStrip r.violationCode
  let desc := pyStrip r.violationDescription
  let cf := pyStrip r.criticalFlag
  if code = "" ∧ desc = "" ∧ cf = "" then s
  else
    let cfUp := pyTitle cf
    let cfUp := if cfUp = "Critical" ∨ cfUp = "Not Critical" ∨ cfUp = "Not Applicable"
      then cfUp else "Not Applicable"
    if violCapReached cfg s then s
    else
      { s with
        violOut := s.violOut ++
          [⟨s.nextViolId, inspId, sanitizeText cfg.asciiOnly (strTake code 20),
            sanitizeText cfg.asciiOnly desc, cfUp⟩],
        nextViolId := s.nextViolId + 1,
        violationsWritten := s.violationsWritten + 1 }

/-- Inspection record written by the extraction loop for a new composite
key, mirroring the writerow dictionary of the source. -/
def inspEmit (cfg : ExtConfig) (r : RawRow) (camis : String) (d : MDate) (i : Nat) :
    InspRow :=
  ⟨i, strTake camis 10, isoStr d,
   sanitizeText cfg.asciiOnly (strTake (pyStrip r.inspectionType) 50),
   sanitizeText cfg.asciiOnly (strTake (pyStrip r.action) 255),
   scoreStrOf r, sanitizeText cfg.asciiOnly (normalizeGrade r.grade),
   gradeDateIsoOf r⟩

/-- State update registering a new inspection key under a fresh identifier
and emitting its record. -/
def registerInsp (cfg : ExtConfig) (s : ExtState) (r : RawRow) (camis : String)
    (d : MDate) : ExtState :=
  { s with
    idx := s.idx ++ [(inspKeyOf r camis d, s.nextInspId)],
    nextInspId := s.nextInspId + 1,
    inspOut := s.inspOut ++ [inspEmit cfg r camis d s.nextInspId],
    inspectionsWritten := s.inspectionsWritten + 1 }

/-- Inspection stage of the extraction loop: compute the composite key; a key
already indexed reuses its identifier with no re-emission; a new key is
dropped when the inspection cap is reached, and otherwise is registered with
a freshly issued identifier and emitted.  Control then reaches the violation
stage. -/
def stageInspection (cfg : ExtConfig) (s : ExtState) (r : RawRow) (camis : String)
    (d : MDate) : ExtState × ExtOutcome :=
  let key := inspKeyOf r camis d
  match lookupIdx s.idx key with
  | some i => (stageViolation cfg s r i, .processed key i)
  | none =>
      if inspCapReached cfg s then (s, .droppedInspCap)
      else
        (stageViolation cfg (registerInsp cfg s r camis d) r s.nextInspId,
         .processed key s.nextInspId)

/-- Restaurant record written by the extraction loop for an admitted new
restaurant. -/
def mkRestRow (cfg : ExtConfig) (r : RawRow) (boro : String) : RestRow :=
  ⟨strTake (pyStrip r.camis) 10,
   sanitizeText cfg.asciiOnly (strTake (pyStrip r.dba) 255),
   boro,
   sanitizeText cfg.asciiOnly (strTake (pyStrip r.building) 20),
   sanitizeText cfg.asciiOnly (strTake (pyStrip r.street) 255),
   strTake (pyStrip r.zipcode) 10,
   cleanPhone r.phone,
   sanitizeText cfg.asciiOnly (strTake (pyStrip r.cuisine) 100)⟩

/-- State update admitting a new restaurant: emit its record and mark the
natural key as seen. -/
def registerRest (cfg : ExtConfig) (s : ExtState) (r : RawRow) (boro : String) :
    ExtState :=
  { s with
    restOut := s.restOut ++ [mkRestRow cfg r boro],
    seen := s.seen ++ [pyStrip r.camis],
    restaurantsWritten := s.restaurantsWritten + 1 }

/-- Body of the extraction loop for one row, after the scanned counter and
the input limit have been handled: parse and range-filter the inspection
date; validate camis, name and borough; admit or drop the restaurant under
the restaurant cap; then run the inspection and violation stages. -/
def processRow (cfg : ExtConfig) (s : ExtState) (r : RawRow) : ExtState × ExtOutcome :=
  match parseDateMDY r.inspectionDate with
  | none => ({ s with dateFilteredOut := s.dateFilteredOut + 1 }, .droppedDate)
  | some d =>
      if dateInRange cfg d then
        let camis := pyStrip r.camis
        let dba := pyStrip r.dba
        match normalizeBoro r.boro with
        | none => ({ s with boroFilteredOut := s.boroFilteredOut + 1 }, .droppedInvalid)
        | some boro =>
            if camis = "" ∨ dba = "" then
              ({ s with boroFilteredOut := s.boroFilteredOut + 1 }, .droppedInvalid)
            else
              if camis ∈ s.seen then stageInspection cfg s r camis d
              else if restCapReached cfg s then (s, .droppedRestCap)
              else stageInspection cfg (registerRest cfg s r boro) r camis d
      else ({ s with dateFilteredOut := s.dateFilteredOut + 1 }, .droppedDate)

/-- Input-row limit test: the source breaks out of the loop when a nonzero
limit is configured and the scanned counter exceeds it. -/
def limitHit (cfg : ExtConfig) (scanned : Nat) : Bool :=
  match cfg.limit with
  | none => false
  | some l => decide (l ≠ 0) && decide (l < (scanned : Int))

/-- Extraction loop over the input rows, threading the state and collecting
the per-row outcomes. -/
def extractGo (cfg : ExtConfig) (s : ExtState) : List RawRow → ExtState × List ExtOutcome
  | [] => (s, [])
  | r :: rs =>
      let s1 := { s with scanned := s.scanned + 1 }
      if limitHit cfg s1.scanned then ({ s1 with limited := true }, [])
      else
        let p := processRow cfg s1 r
        let q := extractGo cfg p.1 rs
        (q.1, p.2 :: q.2)

/-- Run the extractor on a full input: the final state and one outcome per
processed input row. -/
def runExtract (cfg : ExtConfig) (rows : List RawRow) : ExtState × List ExtOutcome :=
  extractGo cfg initExtState rows

/-- Decidable test that a raw row survives the date filter and the
restaurant validation of the extraction loop. -/
def admissibleRow (cfg : ExtConfig) (r : RawRow) : Bool :=
  (match parseDateMDY r.inspectionDate with
   | none => false
   | some d => dateInRange cfg d)
  && pyStrip r.camis ≠ "" && pyStrip r.dba ≠ "" && (normalizeBoro r.boro).isSome

/-! ## Dependency-ordered loader (import_inspection_csvs.py) -/

/-- Embedding of the helper that turns a blank or missing value into None:
strip the value and identify the empty result with absence. -/
def blankToNone (value : String) : Option String :=
  let s := pyStrip value
  if s = "" then none else some s

/-- Embedding of the integer field parser of the loader: a blank value is
absent, a parsable value is an integer, and anything else raises, modelled
as an error. -/
def parseIntL (value : String) : Except Unit (Option Int) :=
  match blankToNone value with
  | none => .ok none
  | some t =>
      match parseIntPy t with
      | some n => .ok (some n)
      | none => .error ()

/-- Embedding of the date field parser of the loader: a blank value is
absent, a canonically formatted ISO date parses, and anything else raises,
modelled as an error. -/
def parseDateL (value : String) : Except Unit (Option MDate) :=
  match blankToNone value with
  | none => .ok none
  | some t =>
      match parseIsoDate t with
      | some d => .ok (some d)
      | none => .error ()

/-- Stored Restaurant record: the non-key fields written by the restaurant
phase of the loader. -/
structure RestVal where
  name : String
  boro : String
  building : String
  street : String
  zipcode : Option String
  phone : Option String
  cuisine : Option String
deriving DecidableEq, Repr

/-- Stored Inspection record: the non-key fields written by the inspection
phase, with the foreign key kept as the parent camis. -/
structure InspVal where
  restrauntCamis : String
  inspectionDate : MDate
  inspectionType : String
  action : String
  score : Option Int
  grade : Option String
  gradeDate : Option MDate
deriving DecidableEq, Repr

/-- Stored Violation record: the non-key fields written by the violation
phase, with the foreign key kept as the parent inspection identifier. -/
structure ViolVal where
  inspectionId : Int
  code : Option String
  description : Option String
  criticalFlag : String
deriving DecidableEq, Repr

/-- Input row of restaurants.csv as read by the loader. -/
structure RRowL where
  camis : String
  name : String
  boro : String
  building : String
  street : String
  zipcode : String
  phone : String
  cuisine : String
deriving DecidableEq, Repr

/-- Input row of inspections.csv as read by the loader. -/
structure IRowL where
  id : String
  restrauntCamis : String
  inspectionDate : String
  inspectionType : String
  action : String
  score : String
  grade : String
  gradeDate : String
deriving DecidableEq, Repr

/-- Input row of violations.csv as read by the loader. -/
structure VRowL where
  id : String
  inspectionId : String
  code : String
  description : String
  criticalFlag : String
deriving DecidableEq, Repr

/-- Stored state of the three tables, as a key-value-by-primary-key store. -/
structure LoadStore where
  restaurants : String → Option RestVal
  inspections : Int → Option InspVal
  violations : Int → Option ViolVal

/-- Store with all three tables empty. -/
def emptyStore : LoadStore :=
  ⟨fun _ => none, fun _ => none, fun _ => none⟩

/-- Upsert into a keyed table: the record under the key, when present, has
all its non-key fields fully overwritten by the new value; otherwise the
record is created.  This is the update_or_create call of the loader. -/
def upsertT {κ α : Type} [DecidableEq κ] (m : κ → Option α) (k : κ) (v : α) :
    κ → Option α :=
  fun q => if q = k then some v else m q

/-- Parse one restaurants.csv row into its key and stored value, as the
restaurant phase does: a missing camis raises, every other field degrades to
a default or to absence. -/
def parseRRow (row : RRowL) : Except String (String × RestVal) :=
  match blankToNone row.camis with
  | none => .error "Missing camis"
  | some camis =>
      .ok (camis,
        ⟨(blankToNone row.name).getD "", (blankToNone row.boro).getD "",
         (blankToNone row.building).getD "", (blankToNone row.street).getD "",
         blankToNone row.zipcode, blankToNone row.phone, blankToNone row.cuisine⟩)

/-- Parse one inspections.csv row against the current restaurant table, as
the inspection phase does: the primary key and the parent camis are
mandatory, the parent must exist in storage, the dates and the score must
parse, and a missing inspection date is rejected by the datastore since the
column does not admit null. -/
def parseIRow (r : String → Option RestVal) (row : IRowL) :
    Except String (Int × InspVal) :=
  match parseIntL row.id with
  | .error _ => .error "invalid literal for id"
  | .ok none => .error "Missing id"
  | .ok (some pk) =>
      match blankToNone row.restrauntCamis with
      | none => .error "Missing restraunt_camis"
      | some camis =>
          match r camis with
          | none => .error ("Restraunt with CAMIS " ++ camis ++
              " not found. Import restaurants first.")
          | some _ =>
              match parseDateL row.inspectionDate with
              | .error _ => .error "Invalid isoformat string for inspection_date"
              | .ok dOpt =>
                  match parseIntL row.score with
                  | .error _ => .error "invalid literal for score"
                  | .ok score =>
                      match parseDateL row.gradeDate with
                      | .error _ => .error "Invalid isoformat string for grade_date"
                      | .ok gradeDate =>
                          match dOpt with
                          | none => .error "NOT NULL constraint failed: inspection_date"
                          | some d =>
                              .ok (pk,
                                ⟨camis, d,
                                 (blankToNone row.inspectionType).getD "",
                                 (blankToNone row.action).getD "",
                                 score, blankToNone row.grade, gradeDate⟩)

/-- Parse one violations.csv row against the current inspection table, as
the violation phase does: the primary key and the parent inspection
identifier are mandatory and the parent must exist in storage; the critical
flag defaults to Not Applicable when absent. -/
def parseVRow (ins : Int → Option InspVal) (row : VRowL) :
    Except String (Int × ViolVal) :=
  match parseIntL row.id with
  | .error _ => .error "invalid literal for id"
  | .ok none => .error "Missing id"
  | .ok (some pk) =>
      match parseIntL row.inspectionId with
      | .error _ => .error "invalid literal for inspection_id"
      | .ok none => .error "Missing inspection_id"
      | .ok (some iid) =>
          match ins iid with
          | none => .error ("Inspection with id " ++ toString iid ++
              " not found. Import inspections first.")
          | some _ =>
              .ok (pk,
                ⟨iid, blankToNone row.code, blankToNone row.description,
                 (blankToNone row.criticalFlag).getD "Not Applicable"⟩)

/-- Failure message format of the restaurant phase: the line number, the
entity, the offending key and the cause. -/
def mkMsgR (n : Nat) (row : RRowL) (cause : String) : String :=
  "Line " ++ Nat.repr n ++ ": Failed to import restaurant (camis=" ++
    row.camis ++ "): " ++ cause

/-- Failure message format of the inspection phase. -/
def mkMsgI (n : Nat) (row : IRowL) (cause : String) : String :=
  "Line " ++ Nat.repr n ++ ": Failed to import inspection (id=" ++
    row.id ++ "): " ++ cause

/-- Failure message format of the violation phase. -/
def mkMsgV (n : Nat) (row : VRowL) (cause : String) : String :=
  "Line " ++ Nat.repr n ++ ": Failed to import violation (id=" ++
    row.id ++ "): " ++ cause

/-- One import phase of the loader over its rows, starting at CSV line two:
a parsed row is upserted by primary key; a failing row raises in strict mode
with the formatted diagnostic, aborting the phase, and in lenient mode is
recorded with its line number and cause and skipped.  The result is the
written table and the recorded failures, or the aborting diagnostic. -/
def loopU {ρ κ α : Type} [DecidableEq κ] (parse : ρ → Except String (κ × α))
    (mkMsg : Nat → ρ → String → String) (strict : Bool) (m : κ → Option α)
    (n : Nat) : List ρ → Except String ((κ → Option α) × List String)
  | [] => .ok (m, [])
  | row :: rs =>
      match parse row with
      | .ok kv => loopU parse mkMsg strict (upsertT m kv.1 kv.2) (n + 1) rs
      | .error cause =>
          if strict then .error (mkMsg n row cause)
          else
            match loopU parse mkMsg strict m (n + 1) rs with
            | .ok p => .ok (p.1, mkMsg n row cause :: p.2)
            | .error e => .error e

/-- Table produced by a phase ignoring failures: every parsable row is
upserted in input order. -/
def foldU {ρ κ α : Type} [DecidableEq κ] (parse : ρ → Except String (κ × α))
    (m : κ → Option α) : List ρ → κ → Option α
  | [] => m
  | row :: rs =>
      match parse row with
      | .ok kv => foldU parse (upsertT m kv.1 kv.2) rs
      | .error _ => foldU parse m rs

/-- Failure diagnostics recorded by a lenient phase. -/
def failsU {ρ κ α : Type} (parse : ρ → Except String (κ × α))
    (mkMsg : Nat → ρ → String → String) (n : Nat) : List ρ → List String
  | [] => []
  | row :: rs =>
      match parse row with
      | .ok _ => failsU parse mkMsg (n + 1) rs
      | .error cause => mkMsg n row cause :: failsU parse mkMsg (n + 1) rs

/-- Embedding of the handle method of the import command without truncate
and dry-run: the three phases run in dependency order, each in its own
transaction; a phase that raises is rolled back, keeps its table unchanged,
and aborts the run, leaving the commits of earlier phases in place.  The
result is the final store and the overall outcome. -/
def handleCmd (strict : Bool) (s : LoadStore) (fr : List RRowL) (fi : List IRowL)
    (fv : List VRowL) : LoadStore × Except String Unit :=
  match loopU parseRRow mkMsgR strict s.restaurants 2 fr with
  | .error msg => (s, .error msg)
  | .ok (r1, _) =>
      match loopU (parseIRow r1) mkMsgI strict s.inspections 2 fi with
      | .error msg => (⟨r1, s.inspections, s.violations⟩, .error msg)
      | .ok (i1, _) =>
          match loopU (parseVRow i1) mkMsgV strict s.violations 2 fv with
          | .error msg => (⟨r1, i1, s.violations⟩, .error msg)
          | .ok (v1, _) => (⟨r1, i1, v1⟩, .ok ())

/-- Queryset delete on the violation table: removes every violation. -/
def deleteAllViolations (s : LoadStore) : LoadStore :=
  ⟨s.restaurants, s.inspections, fun _ => none⟩

/-- Queryset delete on the inspection table with cascade: removes every
inspection, and with it every violation whose parent inspection existed. -/
def deleteAllInspections (s : LoadStore) : LoadStore :=
  ⟨s.restaurants, fun _ => none,
   fun k => match s.violations k with
     | none => none
     | some v => if (s.inspections v.inspectionId).isSome then none else some v⟩

/-- Queryset delete on the restaurant table with two-level cascade: removes
every restaurant, every inspection whose parent restaurant existed, and
every violation whose parent inspection is removed. -/
def deleteAllRestaurants (s : LoadStore) : LoadStore :=
  ⟨fun _ => none,
   fun k => match s.inspections k with
     | none => none
     | some iv => if (s.restaurants iv.restrauntCamis).isSome then none else some iv,
   fun k => match s.violations k with
     | none => none
     | some v =>
         match s.inspections v.inspectionId with
         | none => some v
         | some iv => if (s.restaurants iv.restrauntCamis).isSome then none else some v⟩

/-- Embedding of the truncate step of the loader: delete Violations, then
Inspections, then Restaurants, in that order, inside a single transaction. -/
def truncateAll (s : LoadStore) : LoadStore :=
  deleteAllRestaurants (deleteAllInspections (deleteAllViolations s))

/-- Embedding of the header validation of the loader: no header row, or any
missing required column, is a fatal error whose message names the file. -/
def validateHeaders (actual : List String) (expected : List String)
    (filename : String) : Except String Unit :=
  if actual = [] then .error (filename ++ ": No header row found.")
  else
    match expected.filter (fun f => ¬ (f ∈ actual)) with
    | [] => .ok ()
    | missing => .error (filename ++ ": Missing required columns: " ++
        String.intercalate ", " missing)

/-- Modelled from the spec: the management command runner of the excluded
framework layer turns a raised command error into a nonzero process exit
status; this mapping is not part of the repository sources. -/
def commandExitCode (result : Except String Unit) : Nat :=
  match result with
  | .ok _ => 0
  | .error _ => 1

/-! ## Lemmas about the generic phase loop -/

/-- Last write performed for a key by a phase over its rows. -/
def lastU {ρ κ α : Type} [DecidableEq κ] (parse : ρ → Except String (κ × α)) :
    List ρ → κ → Option α
  | [], _ => none
  | row :: rs, k =>
      match lastU parse rs k with
      | some v => some v
      | none =>
          match parse row with
          | .ok kv => if kv.1 = k then some kv.2 else none
          | .error _ => none

theorem foldU_eq_lastU {ρ κ α : Type} [DecidableEq κ]
    (parse : ρ → Except String (κ × α)) :
    ∀ (rows : List ρ) (m : κ → Option α) (k : κ),
      foldU parse m rows k =
        match lastU parse rows k with
        | some v => some v
        | none => m k := by
  intro rows
  induction rows with
  | nil => intro m k; simp [foldU, lastU]
  | cons row rs ih =>
      intro m k
      cases hp : parse row with
      | ok kv =>
          simp only [foldU, lastU, hp]
          rw [ih]
          cases hl : lastU parse rs k with
          | some v => simp
          | none =>
              simp only [upsertT]
              by_cases hk : kv.1 = k
              · subst hk; simp
              · have hk2 : ¬ (k = kv.1) := fun h => hk h.symm
                simp [hk, hk2]
      | error e =>
          simp only [foldU, lastU, hp]
          rw [ih]
          cases hl : lastU parse rs k <;> simp [hl]

theorem foldU_idem {ρ κ α : Type} [DecidableEq κ]
    (parse : ρ → Except String (κ × α)) (rows : List ρ) (m : κ → Option α) :
    foldU parse (foldU parse m rows) rows = foldU parse m rows := by
  funext k
  rw [foldU_eq_lastU parse rows (foldU parse m rows) k]
  cases hl : lastU parse rows k with
  | some v =>
      simp only [hl]
      rw [foldU_eq_lastU parse rows m k, hl]
  | none => simp only [hl]

theorem loopU_lenient {ρ κ α : Type} [DecidableEq κ]
    (parse : ρ → Except String (κ × α)) (mkMsg : Nat → ρ → String → String) :
    ∀ (rows : List ρ) (m : κ → Option α) (n : Nat),
      loopU parse mkMsg false m n rows =
        .ok (foldU parse m rows, failsU parse mkMsg n rows) := by
  intro rows
  induction rows with
  | nil => intro m n; rfl
  | cons row rs ih =>
      intro m n
      cases hp : parse row with
      | ok kv => simp [loopU, foldU, failsU, hp, ih]
      | error e => simp [loopU, foldU, failsU, hp, ih]

theorem loopU_strictCases {ρ κ α : Type} [DecidableEq κ]
    (parse : ρ → Except String (κ × α)) (mkMsg : Nat → ρ → String → String) :
    ∀ (rows : List ρ) (n : Nat),
      (∃ msg, ∀ m : κ → Option α, loopU parse mkMsg true m n rows = .error msg) ∨
      (∀ m : κ → Option α,
        loopU parse mkMsg true m n rows = .ok (foldU parse m rows, [])) := by
  intro rows
  induction rows with
  | nil => intro n; right; intro m; rfl
  | cons row rs ih =>
      intro n
      cases hp : parse row with
      | ok kv =>
          rcases ih (n + 1) with ⟨msg, hm⟩ | hok
          · left
            exact ⟨msg, fun m => by simp [loopU, hp, hm (upsertT m kv.1 kv.2)]⟩
          · right
            intro m
            simp [loopU, foldU, hp, hok (upsertT m kv.1 kv.2)]
      | error e =>
          left
          exact ⟨mkMsg n row e, fun m => by simp [loopU, hp]⟩

theorem loopU_cases {ρ κ α : Type} [DecidableEq κ]
    (parse : ρ → Except String (κ × α)) (mkMsg : Nat → ρ → String → String)
    (strict : Bool) (rows : List ρ) (n : Nat) :
    (∃ msg, ∀ m : κ → Option α, loopU parse mkMsg strict m n rows = .error msg) ∨
    (∃ fs, ∀ m : κ → Option α,
      loopU parse mkMsg strict m n rows = .ok (foldU parse m rows, fs)) := by
  cases strict with
  | true =>
      rcases loopU_strictCases parse mkMsg rows n with h | h
      · exact Or.inl h
      · exact Or.inr ⟨[], h⟩
  | false =>
      exact Or.inr ⟨failsU parse mkMsg n rows, fun m => loopU_lenient parse mkMsg rows m n⟩

/-! ## Claim C1: loader idempotence -/

/-- Claim C1: running the loader import twice in succession on the same
three normalized input files, with the same flags and no truncate between
the runs, leaves the stored Restaurant, Inspection and Violation tables in
exactly the same state as running it once; every write is an upsert keyed by
primary key that fully overwrites the non-key fields of an existing
record. -/
theorem c1_loader_idempotent (strict : Bool) (s : LoadStore) (fr : List RRowL)
    (fi : List IRowL) (fv : List VRowL) :
    (handleCmd strict (handleCmd strict s fr fi fv).1 fr fi fv).1
      = (handleCmd strict s fr fi fv).1 := by
  rcases loopU_cases parseRRow mkMsgR strict fr 2 with ⟨msgR, hR⟩ | ⟨fsR, hR⟩
  · have h1 : handleCmd strict s fr fi fv = (s, .error msgR) := by
      simp [handleCmd, hR s.restaurants]
    rw [h1]
    simp only
    rw [h1]
  · have hRidem : foldU parseRRow (foldU parseRRow s.restaurants fr) fr
        = foldU parseRRow s.restaurants fr := foldU_idem parseRRow fr s.restaurants
    rcases loopU_cases (parseIRow (foldU parseRRow s.restaurants fr)) mkMsgI strict fi 2
      with ⟨msgI, hI⟩ | ⟨fsI, hI⟩
    · have h1 : handleCmd strict s fr fi fv =
          (⟨foldU parseRRow s.restaurants fr, s.inspections, s.violations⟩, .error msgI) := by
        simp [handleCmd, hR s.restaurants, hI s.inspections]
      have hR2 := hR (foldU parseRRow s.restaurants fr)
      rw [hRidem] at hR2
      have h2 : handleCmd strict
          ⟨foldU parseRRow s.restaurants fr, s.inspections, s.violations⟩ fr fi fv =
          (⟨foldU parseRRow s.restaurants fr, s.inspections, s.violations⟩, .error msgI) := by
        simp [handleCmd, hR2, hI s.inspections]
      rw [h1]
      simp only
      rw [h2]
    · have hIidem : foldU (parseIRow (foldU parseRRow s.restaurants fr))
          (foldU (parseIRow (foldU parseRRow s.restaurants fr)) s.inspections fi) fi
          = foldU (parseIRow (foldU parseRRow s.restaurants fr)) s.inspections fi :=
        foldU_idem _ fi s.inspections
      have hR2 := hR (foldU parseRRow s.restaurants fr)
      rw [hRidem] at hR2
      have hI2 := hI (foldU (parseIRow (foldU parseRRow s.restaurants fr)) s.inspections fi)
      rw [hIidem] at hI2
      rcases loopU_cases
        (parseVRow (foldU (parseIRow (foldU parseRRow s.restaurants fr)) s.inspections fi))
        mkMsgV strict fv 2 with ⟨msgV, hV⟩ | ⟨fsV, hV⟩
      · have h1 : handleCmd strict s fr fi fv =
            (⟨foldU parseRRow s.restaurants fr,
              foldU (parseIRow (foldU parseRRow s.restaurants fr)) s.inspections fi,
              s.violations⟩, .error msgV) := by
          simp [handleCmd, hR s.restaurants, hI s.inspections, hV s.violations]
        have h2 : handleCmd strict
            ⟨foldU parseRRow s.restaurants fr,
             foldU (parseIRow (foldU parseRRow s.restaurants fr)) s.inspections fi,
             s.violations⟩ fr fi fv =
            (⟨foldU parseRRow s.restaurants fr,
              foldU (parseIRow (foldU parseRRow s.restaurants fr)) s.inspections fi,
              s.violations⟩, .error msgV) := by
          simp [handleCmd, hR2, hI2, hV s.violations]
        rw [h1]
        simp only
        rw [h2]
      · have hVidem : foldU
            (parseVRow (foldU (parseIRow (foldU parseRRow s.restaurants fr)) s.inspections fi))
            (foldU (parseVRow
              (foldU (parseIRow (foldU parseRRow s.restaurants fr)) s.inspections fi))
              s.violations fv) fv
            = foldU (parseVRow
                (foldU (parseIRow (foldU parseRRow s.restaurants fr)) s.inspections fi))
                s.violations fv :=
          foldU_idem _ fv s.violations
        have hV2 := hV (foldU (parseVRow
          (foldU (parseIRow (foldU parseRRow s.restaurants fr)) s.inspections fi))
          s.violations fv)
        rw [hVidem] at hV2
        have h1 : handleCmd strict s fr fi fv =
            (⟨foldU parseRRow s.restaurants fr,
              foldU (parseIRow (foldU parseRRow s.restaurants fr)) s.inspections fi,
              foldU (parseVRow
                (foldU (parseIRow (foldU parseRRow s.restaurants fr)) s.inspections fi))
                s.violations fv⟩, .ok ()) := by
          simp [handleCmd, hR s.restaurants, hI s.inspections, hV s.violations]
        have h2 : handleCmd strict
            ⟨foldU parseRRow s.restaurants fr,
             foldU (parseIRow (foldU parseRRow s.restaurants fr)) s.inspections fi,
             foldU (parseVRow
               (foldU (parseIRow (foldU parseRRow s.restaurants fr)) s.inspections fi))
               s.violations fv⟩ fr fi fv =
            (⟨foldU parseRRow s.restaurants fr,
              foldU (parseIRow (foldU parseRRow s.restaurants fr)) s.inspections fi,
              foldU (parseVRow
                (foldU (parseIRow (foldU parseRRow s.restaurants fr)) s.inspections fi))
                s.violations fv⟩, .ok ()) := by
          simp [handleCmd, hR2, hI2, hV2]
        rw [h1]
        simp only
        rw [h2]

/-! ## Claim C4: strict mode rolls back the failing phase only -/

/-- Claim C4: in strict mode, when a row of a phase fails, every upsert
performed earlier in that same phase is rolled back, so the failing phase
commits nothing, while the records committed by earlier phases remain
stored.  Each of the three conjuncts covers a failure in one phase. -/
theorem c4_strict_phase_rollback :
    (∀ (s : LoadStore) (fr : List RRowL) (fi : List IRowL) (fv : List VRowL) msg,
      loopU parseRRow mkMsgR true s.restaurants 2 fr = .error msg →
      handleCmd true s fr fi fv = (s, .error msg))
    ∧ (∀ (s : LoadStore) (fr : List RRowL) (fi : List IRowL) (fv : List VRowL) r1 fsR msg,
      loopU parseRRow mkMsgR true s.restaurants 2 fr = .ok (r1, fsR) →
      loopU (parseIRow r1) mkMsgI true s.inspections 2 fi = .error msg →
      handleCmd true s fr fi fv = (⟨r1, s.inspections, s.violations⟩, .error msg))
    ∧ (∀ (s : LoadStore) (fr : List RRowL) (fi : List IRowL) (fv : List VRowL)
        r1 fsR i1 fsI msg,
      loopU parseRRow mkMsgR true s.restaurants 2 fr = .ok (r1, fsR) →
      loopU (parseIRow r1) mkMsgI true s.inspections 2 fi = .ok (i1, fsI) →
      loopU (parseVRow i1) mkMsgV true s.violations 2 fv = .error msg →
      handleCmd true s fr fi fv = (⟨r1, i1, s.violations⟩, .error msg)) := by
  refine ⟨?_, ?_, ?_⟩
  · intro s fr fi fv msg h1
    simp [handleCmd, h1]
  · intro s fr fi fv r1 fsR msg h1 h2
    simp [handleCmd, h1, h2]
  · intro s fr fi fv r1 fsR i1 fsI msg h1 h2 h3
    simp [handleCmd, h1, h2, h3]

/-! ## Claim C5: truncate empties all three tables -/

/-- Claim C5: for every stored state, the truncate step deletes all
Violations, then all Inspections, then all Restaurants, in that order inside
one transaction, after which all three tables contain zero rows. -/
theorem c5_truncate_empties (s : LoadStore) : truncateAll s = emptyStore := by
  show deleteAllRestaurants (deleteAllInspections (deleteAllViolations s)) = emptyStore
  unfold deleteAllViolations deleteAllInspections deleteAllRestaurants emptyStore
  simp

/-! ## Substring machinery for diagnostic messages -/

/-- Decidable check that the pattern occurs at the start of the list. -/
def startsList : List Char → List Char → Bool
  | [], _ => true
  | _ :: _, [] => false
  | a :: as, b :: bs => a = b && startsList as bs

/-- Decidable check that the pattern occurs somewhere inside the list. -/
def hasSub (pat : List Char) : List Char → Bool
  | [] => startsList pat []
  | c :: t => startsList pat (c :: t) || hasSub pat t

theorem startsList_self_append (pat rest : List Char) :
    startsList pat (pat ++ rest) = true := by
  induction pat with
  | nil => rfl
  | cons a as ih => simp [startsList, ih]

theorem hasSub_of_starts (pat l : List Char) (h : startsList pat l = true) :
    hasSub pat l = true := by
  cases l with
  | nil => exact h
  | cons c t => simp [hasSub, h]

theorem hasSub_append (pat a b : List Char) :
    hasSub pat (a ++ pat ++ b) = true := by
  induction a with
  | nil =>
      simp only [List.nil_append]
      exact hasSub_of_starts pat (pat ++ b) (startsList_self_append pat b)
  | cons c cs ih =>
      have hstep : hasSub pat ((c :: cs) ++ pat ++ b) =
          (startsList pat ((c :: cs) ++ pat ++ b) || hasSub pat (cs ++ pat ++ b)) := rfl
      rw [hstep, ih]
      simp

/-- Occurrence of one string inside another, as a decidable check on the
underlying characters. -/
def strHasSub (pat s : String) : Bool :=
  hasSub pat.data s.data

theorem strData_append (a b : String) : (a ++ b).data = a.data ++ b.data := by
  cases a
  cases b
  rfl

theorem strHasSub_of_append (a pat b : String) :
    strHasSub pat (a ++ pat ++ b) = true := by
  show hasSub pat.data (a ++ pat ++ b).data = true
  rw [strData_append, strData_append]
  exact hasSub_append pat.data a.data b.data

/-! ## Claim C3: referential integrity of the loader -/

theorem loopU_error_step {ρ κ α : Type} [DecidableEq κ]
    (parse : ρ → Except String (κ × α)) (mkMsg : Nat → ρ → String → String)
    (row : ρ) (rs : List ρ) (m : κ → Option α) (n : Nat) (cause : String)
    (hp : parse row = .error cause) :
    loopU parse mkMsg true m n (row :: rs) = .error (mkMsg n row cause)
    ∧ loopU parse mkMsg false m n (row :: rs) =
        Except.map (fun p => (p.1, mkMsg n row cause :: p.2))
          (loopU parse mkMsg false m (n + 1) rs) := by
  constructor
  · simp [loopU, hp]
  · simp only [loopU, hp, Bool.false_eq_true, if_false]
    cases h2 : loopU parse mkMsg false m (n + 1) rs with
    | ok p => simp [Except.map]
    | error e => simp [Except.map]

/-- Claim C3: an Inspection row whose declared parent restaurant key does
not exist in storage, and a Violation row whose declared parent inspection
identifier does not exist in storage, are row failures: strict mode raises
the formatted diagnostic and aborts the phase, lenient mode records the
failure with its line number and cause and continues with the remaining rows
on an unchanged table; in neither mode is the child row written or the
parent defaulted. -/
theorem c3_referential_integrity :
    (∀ (r : String → Option RestVal) (row : IRowL) (camis : String),
      blankToNone row.restrauntCamis = some camis → r camis = none →
      ∃ cause, parseIRow r row = .error cause
        ∧ (∀ (i : Int → Option InspVal) (n : Nat) (rs : List IRowL),
            loopU (parseIRow r) mkMsgI true i n (row :: rs) = .error (mkMsgI n row cause))
        ∧ (∀ (i : Int → Option InspVal) (n : Nat) (rs : List IRowL),
            loopU (parseIRow r) mkMsgI false i n (row :: rs) =
              Except.map (fun p => (p.1, mkMsgI n row cause :: p.2))
                (loopU (parseIRow r) mkMsgI false i (n + 1) rs)))
    ∧ (∀ (ins : Int → Option InspVal) (row : VRowL) (iid : Int),
      parseIntL row.inspectionId = .ok (some iid) → ins iid = none →
      ∃ cause, parseVRow ins row = .error cause
        ∧ (∀ (v : Int → Option ViolVal) (n : Nat) (rs : List VRowL),
            loopU (parseVRow ins) mkMsgV true v n (row :: rs) = .error (mkMsgV n row cause))
        ∧ (∀ (v : Int → Option ViolVal) (n : Nat) (rs : List VRowL),
            loopU (parseVRow ins) mkMsgV false v n (row :: rs) =
              Except.map (fun p => (p.1, mkMsgV n row cause :: p.2))
                (loopU (parseVRow ins) mkMsgV false v (n + 1) rs))) := by
  constructor
  · intro r row camis hc hr
    have main : ∀ cause, parseIRow r row = .error cause →
        ∃ cause, parseIRow r row = .error cause
          ∧ (∀ (i : Int → Option InspVal) (n : Nat) (rs : List IRowL),
              loopU (parseIRow r) mkMsgI true i n (row :: rs) = .error (mkMsgI n row cause))
          ∧ (∀ (i : Int → Option InspVal) (n : Nat) (rs : List IRowL),
              loopU (parseIRow r) mkMsgI false i n (row :: rs) =
                Except.map (fun p => (p.1, mkMsgI n row cause :: p.2))
                  (loopU (parseIRow r) mkMsgI false i (n + 1) rs)) := by
      intro cause hp
      exact ⟨cause, hp,
        fun i n rs => (loopU_error_step (parseIRow r) mkMsgI row rs i n cause hp).1,
        fun i n rs => (loopU_error_step (parseIRow r) mkMsgI row rs i n cause hp).2⟩
    cases hid : parseIntL row.id with
    | error e => exact main "invalid literal for id" (by simp [parseIRow, hid])
    | ok o =>
        cases o with
        | none => exact main "Missing id" (by simp [parseIRow, hid])
        | some pk =>
            exact main ("Restraunt with CAMIS " ++ camis ++
              " not found. Import restaurants first.") (by simp [parseIRow, hid, hc, hr])
  · intro ins row iid hi hins
    have main : ∀ cause, parseVRow ins row = .error cause →
        ∃ cause, parseVRow ins row = .error cause
          ∧ (∀ (v : Int → Option ViolVal) (n : Nat) (rs : List VRowL),
              loopU (parseVRow ins) mkMsgV true v n (row :: rs) = .error (mkMsgV n row cause))
          ∧ (∀ (v : Int → Option ViolVal) (n : Nat) (rs : List VRowL),
              loopU (parseVRow ins) mkMsgV false v n (row :: rs) =
                Except.map (fun p => (p.1, mkMsgV n row cause :: p.2))
                  (loopU (parseVRow ins) mkMsgV false v (n + 1) rs)) := by
      intro cause hp
      exact ⟨cause, hp,
        fun v n rs => (loopU_error_step (parseVRow ins) mkMsgV row rs v n cause hp).1,
        fun v n rs => (loopU_error_step (parseVRow ins) mkMsgV row rs v n cause hp).2⟩
    cases hid : parseIntL row.id with
    | error e => exact main "invalid literal for id" (by simp [parseVRow, hid])
    | ok o =>
        cases o with
        | none => exact main "Missing id" (by simp [parseVRow, hid])
        | some pk =>
            exact main ("Inspection with id " ++ toString iid ++
              " not found. Import inspections first.") (by simp [parseVRow, hid, hi, hins])

theorem strAppend_assoc (a b c : String) : a ++ b ++ c = a ++ (b ++ c) := by
  cases a with
  | mk da =>
      cases b with
      | mk db =>
          cases c with
          | mk dc =>
              show String.mk (da ++ db ++ dc) = String.mk (da ++ (db ++ dc))
              rw [List.append_assoc]

/-! ## Claim C9: abort diagnostics -/

/-- Amended claim C9: whenever the loader aborts it raises a command error,
turned into a nonzero exit status by the framework runner; a header
validation failure carries a diagnostic naming the file (with no line
number), and a strict row failure carries a diagnostic naming the line
number and the offending key (but not the file). -/
theorem c9_amended_diagnostics :
    (∀ (fname : String) (expected : List String),
      validateHeaders [] expected fname = .error (fname ++ ": No header row found.")
      ∧ strHasSub fname (fname ++ ": No header row found.") = true
      ∧ commandExitCode (.error (fname ++ ": No header row found.")) ≠ 0)
    ∧ (∀ (fname : String) (actual expected : List String) (m : String) (ms : List String),
      actual ≠ [] → expected.filter (fun f => ¬ (f ∈ actual)) = m :: ms →
      validateHeaders actual expected fname =
        .error (fname ++ ": Missing required columns: " ++ String.intercalate ", " (m :: ms))
      ∧ strHasSub fname (fname ++ ": Missing required columns: " ++
          String.intercalate ", " (m :: ms)) = true)
    ∧ (∀ (row : RRowL) (cause : String) (mt : String → Option RestVal)
        (n : Nat) (rs : List RRowL),
      parseRRow row = .error cause →
      loopU parseRRow mkMsgR true mt n (row :: rs) = .error (mkMsgR n row cause)
      ∧ strHasSub ("Line " ++ Nat.repr n) (mkMsgR n row cause) = true
      ∧ strHasSub row.camis (mkMsgR n row cause) = true
      ∧ commandExitCode (.error (mkMsgR n row cause)) ≠ 0) := by
  refine ⟨?_, ?_, ?_⟩
  · intro fname expected
    refine ⟨rfl, ?_, by simp [commandExitCode]⟩
    exact strHasSub_of_append "" fname ": No header row found."
  · intro fname actual expected m ms hne hfil
    simp only [decide_not] at hfil
    constructor
    · simp [validateHeaders, hne, hfil]
    · rw [strAppend_assoc]
      exact strHasSub_of_append "" fname
        (": Missing required columns: " ++ String.intercalate ", " (m :: ms))
  · intro row cause mt n rs hp
    refine ⟨(loopU_error_step parseRRow mkMsgR row rs mt n cause hp).1, ?_, ?_,
      by simp [commandExitCode]⟩
    · have hmsg : mkMsgR n row cause = ("Line " ++ Nat.repr n) ++
          (": Failed to import restaurant (camis=" ++ row.camis ++ ("): " ++ cause)) := by
        simp [mkMsgR, strAppend_assoc]
      rw [hmsg]
      exact strHasSub_of_append "" ("Line " ++ Nat.repr n)
        (": Failed to import restaurant (camis=" ++ row.camis ++ ("): " ++ cause))
    · have hmsg : mkMsgR n row cause = ("Line " ++ (Nat.repr n ++
          ": Failed to import restaurant (camis=")) ++ row.camis ++ ("): " ++ cause) := by
        simp [mkMsgR, strAppend_assoc]
      rw [hmsg]
      exact strHasSub_of_append ("Line " ++ (Nat.repr n ++
        ": Failed to import restaurant (camis=")) row.camis ("): " ++ cause)

/-- Concrete restaurant row with a blank primary key, used to exhibit a
strict row failure. -/
def w9row : RRowL := ⟨"", "Nameless", "Bronx", "", "", "", "", ""⟩

/-- Counterexample to claim C9 as stated: a strict row failure on the file
restaurants.csv aborts with a diagnostic that carries the line number and the
offending key but does not identify the file anywhere in the message. -/
theorem c9_counterexample :
    loopU parseRRow mkMsgR true (fun _ => none) 2 [w9row]
      = .error "Line 2: Failed to import restaurant (camis=): Missing camis"
    ∧ strHasSub "restaurants.csv"
        "Line 2: Failed to import restaurant (camis=): Missing camis" = false := by
  exact ⟨rfl, by decide⟩

/-! ## Stage lemmas for the extraction loop -/

theorem stageViolation_fields (cfg : ExtConfig) (s : ExtState) (r : RawRow) (i : Nat) :
    (stageViolation cfg s r i).idx = s.idx
    ∧ (stageViolation cfg s r i).inspOut = s.inspOut
    ∧ (stageViolation cfg s r i).restOut = s.restOut
    ∧ (stageViolation cfg s r i).seen = s.seen
    ∧ (stageViolation cfg s r i).nextInspId = s.nextInspId
    ∧ (stageViolation cfg s r i).inspectionsWritten = s.inspectionsWritten := by
  simp only [stageViolation]
  split
  · simp
  · split <;> simp

theorem stageViolation_violOut_mem (cfg : ExtConfig) (s : ExtState) (r : RawRow)
    (i : Nat) (vr : ViolRow) (h : vr ∈ (stageViolation cfg s r i).violOut) :
    vr ∈ s.violOut ∨ vr.inspectionId = i := by
  simp only [stageViolation] at h
  split at h
  · exact Or.inl h
  · split at h
    · exact Or.inl h
    · simp only [List.mem_append, List.mem_singleton] at h
      rcases h with h | h
      · exact Or.inl h
      · subst h
        exact Or.inr rfl

/-! ## Claim C7: borough normalization and row rejection -/

/-- Claim C7: a raw BORO value equal to one of the five canonical borough
names normalizes to itself; otherwise an uppercased, punctuation-normalized
lookup against the known aliases is attempted, mapping STATEN_ISLAND to
Staten Island; and a value with no mapping, such as Unknown, makes the
extraction loop drop the whole row, emitting nothing and counting the drop
in the borough filter counter. -/
theorem c7_boro_normalization :
    (∀ v ∈ canonicalBoros, normalizeBoro v = some v)
    ∧ normalizeBoro "STATEN_ISLAND" = some "Staten Island"
    ∧ normalizeBoro "Unknown" = none
    ∧ (∀ (cfg : ExtConfig) (s : ExtState) (r : RawRow) (d : MDate),
        parseDateMDY r.inspectionDate = some d → dateInRange cfg d = true →
        normalizeBoro r.boro = none →
        processRow cfg s r =
          ({ s with boroFilteredOut := s.boroFilteredOut + 1 }, .droppedInvalid)) := by
  refine ⟨by decide, by decide, by decide, ?_⟩
  intro cfg s r d hd hr hboro
  simp [processRow, hd, hr, hboro]

/-! ## Claim C6: sanitation order of free-text fields -/

/-- Order of operations asserted by the specification sentence for a
free-text field with maximum length L: trim, collapse internal whitespace,
convert smart punctuation and control characters, optionally strip
non-ASCII, and, as the final step, truncate to L characters. -/
def specC6Text (asciiOnly : Bool) (maxLen : Nat) (raw : String) : String :=
  strTake (sanitizeText asciiOnly (pyStrip raw)) maxLen

/-- Extractor configuration for the counterexample run: an open 2023-2025
window with no caps and no limit. -/
def w6cfg : ExtConfig := ⟨⟨2023, 1, 1⟩, ⟨2025, 12, 31⟩, false, none, none, none, none⟩

/-- Raw row whose building field is the letter a, twenty spaces, and the
letter b: truncation before whitespace collapse and truncation after it
give different results on it. -/
def w6row : RawRow :=
  ⟨"41000000", "Diner", "Bronx", "a                    b", "Main St", "10001",
   "", "", "01/15/2023", "Cycle Inspection", "", "", "", "", "", "", ""⟩

/-- Counterexample to claim C6 as stated: the building value emitted by the
extractor for the counterexample row is the single letter a, while applying
the claimed order of operations, with truncation as the final step, yields
the letters a and b separated by one space. -/
theorem c6_counterexample :
    (runExtract w6cfg [w6row]).1.restOut.map RestRow.building
      ≠ [specC6Text false 20 w6row.building] := by
  decide

/-- Amended claim C6: for each emitted free-text field with maximum length L
(restaurant name, building, street, cuisine, inspection type, action), the
emitted value is obtained by trimming the raw value, truncating it to L raw
characters first, and then applying the sanitation steps (whitespace
collapse, punctuation conversion, optional non-ASCII strip), rather than
truncating last. -/
theorem c6_amended_truncate_first (cfg : ExtConfig) (s : ExtState) (r : RawRow)
    (d : MDate) (boro : String)
    (hd : parseDateMDY r.inspectionDate = some d)
    (hr : dateInRange cfg d = true)
    (hb : normalizeBoro r.boro = some boro)
    (hcamis : ¬ (pyStrip r.camis = ""))
    (hdba : ¬ (pyStrip r.dba = ""))
    (hnew : ¬ (pyStrip r.camis ∈ s.seen))
    (hcap : restCapReached cfg s = false)
    (hkey : lookupIdx s.idx (inspKeyOf r (pyStrip r.camis) d) = none)
    (hicap : inspCapReached cfg s = false) :
    (processRow cfg s r).1.restOut = s.restOut ++
      [⟨strTake (pyStrip r.camis) 10,
        sanitizeText cfg.asciiOnly (strTake (pyStrip r.dba) 255),
        boro,
        sanitizeText cfg.asciiOnly (strTake (pyStrip r.building) 20),
        sanitizeText cfg.asciiOnly (strTake (pyStrip r.street) 255),
        strTake (pyStrip r.zipcode) 10,
        cleanPhone r.phone,
        sanitizeText cfg.asciiOnly (strTake (pyStrip r.cuisine) 100)⟩]
    ∧ (processRow cfg s r).1.inspOut = s.inspOut ++
      [⟨s.nextInspId, strTake (pyStrip r.camis) 10, isoStr d,
        sanitizeText cfg.asciiOnly (strTake (pyStrip r.inspectionType) 50),
        sanitizeText cfg.asciiOnly (strTake (pyStrip r.action) 255),
        scoreStrOf r, sanitizeText cfg.asciiOnly (normalizeGrade r.grade),
        gradeDateIsoOf r⟩] := by
  have hproc : processRow cfg s r =
      stageInspection cfg
        { s with
          restOut := s.restOut ++ [mkRestRow cfg r boro],
          seen := s.seen ++ [pyStrip r.camis],
          restaurantsWritten := s.restaurantsWritten + 1 }
        r (pyStrip r.camis) d := by
    simp [processRow, registerRest, hd, hr, hb, hcamis, hdba, hnew, hcap]
  rw [hproc]
  set s1 : ExtState :=
    { s with
      restOut := s.restOut ++ [mkRestRow cfg r boro],
      seen := s.seen ++ [pyStrip r.camis],
      restaurantsWritten := s.restaurantsWritten + 1 } with hs1
  have hkey1 : lookupIdx s1.idx (inspKeyOf r (pyStrip r.camis) d) = none := hkey
  have hicap1 : inspCapReached cfg s1 = false := hicap
  have hstage : stageInspection cfg s1 r (pyStrip r.camis) d =
      (stageViolation cfg
        { s1 with
          idx := s1.idx ++ [(inspKeyOf r (pyStrip r.camis) d, s1.nextInspId)],
          nextInspId := s1.nextInspId + 1,
          inspOut := s1.inspOut ++
            [⟨s1.nextInspId, strTake (pyStrip r.camis) 10, isoStr d,
              sanitizeText cfg.asciiOnly (strTake (pyStrip r.inspectionType) 50),
              sanitizeText cfg.asciiOnly (strTake (pyStrip r.action) 255),
              scoreStrOf r, sanitizeText cfg.asciiOnly (normalizeGrade r.grade),
              gradeDateIsoOf r⟩],
          inspectionsWritten := s1.inspectionsWritten + 1 }
        r s1.nextInspId, .processed (inspKeyOf r (pyStrip r.camis) d) s1.nextInspId) := by
    simp [stageInspection, registerInsp, inspEmit, hkey1, hicap1]
  rw [hstage]
  constructor
  · rw [(stageViolation_fields cfg _ r s1.nextInspId).2.2.1]
    simp [hs1, mkRestRow]
  · rw [(stageViolation_fields cfg _ r s1.nextInspId).2.1]

/-! ## Dedup index lemmas -/

theorem lookupIdx_append (a b : List (InspKey × Nat)) (k : InspKey) :
    lookupIdx (a ++ b) k =
      match lookupIdx a k with
      | some i => some i
      | none => lookupIdx b k := by
  induction a with
  | nil => simp [lookupIdx]
  | cons p t ih =>
      by_cases hk : p.1 = k
      · simp [lookupIdx, hk]
      · simp only [List.cons_append, lookupIdx, hk, if_false]
        exact ih

theorem lookupIdx_some_mem (l : List (InspKey × Nat)) (k : InspKey) (i : Nat)
    (h : lookupIdx l k = some i) : (k, i) ∈ l := by
  induction l with
  | nil => simp [lookupIdx] at h
  | cons p t ih =>
      by_cases hk : p.1 = k
      · simp only [lookupIdx, hk, if_true] at h
        have hp : p = (k, i) := by
          obtain ⟨p1, p2⟩ := p
          simp only at hk
          simp only [Option.some.injEq] at h
          rw [hk, h]
        rw [← hp]
        exact List.mem_cons_self p t
      · simp only [lookupIdx, hk, if_false] at h
        exact List.mem_cons_of_mem p (ih h)

theorem lookupIdx_none_not_mem (l : List (InspKey × Nat)) (k : InspKey)
    (h : lookupIdx l k = none) : k ∉ l.map Prod.fst := by
  induction l with
  | nil => simp
  | cons p t ih =>
      by_cases hk : p.1 = k
      · simp [lookupIdx, hk] at h
      · simp only [lookupIdx, hk, if_false] at h
        simp only [List.map_cons, List.mem_cons]
        rintro (hc | hc)
        · exact hk hc.symm
        · exact ih h hc

theorem snd_nodup_key_eq (l : List (InspKey × Nat)) (hnd : (l.map Prod.snd).Nodup)
    (k1 k2 : InspKey) (i : Nat) (h1 : (k1, i) ∈ l) (h2 : (k2, i) ∈ l) : k1 = k2 := by
  induction l with
  | nil => simp at h1
  | cons p t ih =>
      simp only [List.map_cons, List.nodup_cons] at hnd
      rcases List.mem_cons.mp h1 with e1 | m1
      · rcases List.mem_cons.mp h2 with e2 | m2
        · exact congrArg Prod.fst (e1.trans e2.symm)
        · exfalso
          apply hnd.1
          have hp2 : p.2 = i := congrArg Prod.snd e1.symm
          rw [hp2]
          exact List.mem_map_of_mem Prod.snd m2
      · rcases List.mem_cons.mp h2 with e2 | m2
        · exfalso
          apply hnd.1
          have hp2 : p.2 = i := congrArg Prod.snd e2.symm
          rw [hp2]
          exact List.mem_map_of_mem Prod.snd m1
        · exact ih hnd.2 m1 m2

/-! ## Extraction loop invariant -/

/-- Invariant maintained by the extraction loop: the dedup index has unique
keys and unique identifiers, identifiers are below the next fresh one, the
emitted inspection identifiers are exactly the indexed ones in order, every
seen restaurant key has its truncated form emitted, the emitted child
records reference emitted parents, the emitted restaurant records correspond
one to one to the seen keys, and the number of seen keys respects the
restaurant cap. -/
structure ExtInv (cfg : ExtConfig) (s : ExtState) : Prop where
  keysNodup : (s.idx.map Prod.fst).Nodup
  idsNodup : (s.idx.map Prod.snd).Nodup
  idLt : ∀ k i, (k, i) ∈ s.idx → i < s.nextInspId
  outIds : s.inspOut.map InspRow.id = s.idx.map Prod.snd
  seenRest : ∀ c ∈ s.seen, strTake c 10 ∈ s.restOut.map RestRow.camis
  inspRef : ∀ ir ∈ s.inspOut, ir.restrauntCamis ∈ s.restOut.map RestRow.camis
  violRef : ∀ vr ∈ s.violOut, vr.inspectionId ∈ s.inspOut.map InspRow.id
  restLen : s.restOut.length = s.seen.length
  seenCap : ∀ m : Int, cfg.maxRestaurants = some m → (s.seen.length : Int) ≤ max m 0

theorem extInv_init (cfg : ExtConfig) : ExtInv cfg initExtState := by
  refine ⟨?_, ?_, ?_, ?_, ?_, ?_, ?_, ?_, ?_⟩
  · simp [initExtState]
  · simp [initExtState]
  · intro k i h; simp [initExtState] at h
  · simp [initExtState]
  · intro c hc; simp [initExtState] at hc
  · intro ir hir; simp [initExtState] at hir
  · intro vr hvr; simp [initExtState] at hvr
  · simp [initExtState]
  · intro m hm
    simp [initExtState]

theorem stageViolation_inv (cfg : ExtConfig) (s : ExtState) (r : RawRow) (i : Nat)
    (hs : ExtInv cfg s) (hi : i ∈ s.inspOut.map InspRow.id) :
    ExtInv cfg (stageViolation cfg s r i) := by
  obtain ⟨f1, f2, f3, f4, f5, f6⟩ := stageViolation_fields cfg s r i
  refine ⟨?_, ?_, ?_, ?_, ?_, ?_, ?_, ?_, ?_⟩
  · rw [f1]; exact hs.keysNodup
  · rw [f1]; exact hs.idsNodup
  · intro k j hmem
    rw [f1] at hmem
    rw [f5]
    exact hs.idLt k j hmem
  · rw [f2, f1]; exact hs.outIds
  · intro c hc
    rw [f4] at hc
    rw [f3]
    exact hs.seenRest c hc
  · intro ir hir
    rw [f2] at hir
    rw [f3]
    exact hs.inspRef ir hir
  · intro vr hv
    rcases stageViolation_violOut_mem cfg s r i vr hv with h | h
    · rw [f2]; exact hs.violRef vr h
    · rw [f2, h]; exact hi
  · rw [f3, f4]; exact hs.restLen
  · intro m hm
    rw [f4]
    exact hs.seenCap m hm

theorem nodup_app_one {α : Type} (l : List α) (a : α) (h : l.Nodup) (ha : a ∉ l) :
    (l ++ [a]).Nodup := by
  refine List.nodup_append.mpr ⟨h, List.nodup_singleton a, ?_⟩
  intro x hx hxa
  simp only [List.mem_singleton] at hxa
  subst hxa
  exact ha hx

theorem stageInspection_inv (cfg : ExtConfig) (s : ExtState) (r : RawRow)
    (camis : String) (d : MDate) (hs : ExtInv cfg s)
    (hcamis : strTake camis 10 ∈ s.restOut.map RestRow.camis) :
    ExtInv cfg (stageInspection cfg s r camis d).1
    ∧ (∃ t, (stageInspection cfg s r camis d).1.idx = s.idx ++ t)
    ∧ (stageInspection cfg s r camis d).1.seen = s.seen
    ∧ (stageInspection cfg s r camis d).1.restOut = s.restOut
    ∧ (∀ k i, (stageInspection cfg s r camis d).2 = .processed k i →
        lookupIdx (stageInspection cfg s r camis d).1.idx k = some i) := by
  cases hl : lookupIdx s.idx (inspKeyOf r camis d) with
  | some i =>
      have hst : stageInspection cfg s r camis d =
          (stageViolation cfg s r i, .processed (inspKeyOf r camis d) i) := by
        simp [stageInspection, hl]
      obtain ⟨f1, f2, f3, f4, f5, f6⟩ := stageViolation_fields cfg s r i
      have hmem : i ∈ s.inspOut.map InspRow.id := by
        rw [hs.outIds]
        exact List.mem_map_of_mem Prod.snd (lookupIdx_some_mem _ _ _ hl)
      rw [hst]
      refine ⟨stageViolation_inv cfg s r i hs hmem, ⟨[], by rw [f1]; simp⟩, f4, f3, ?_⟩
      intro k j hkj
      simp only [ExtOutcome.processed.injEq] at hkj
      rw [f1, ← hkj.1, ← hkj.2]
      exact hl
  | none =>
      by_cases hcap : inspCapReached cfg s = true
      · have hst : stageInspection cfg s r camis d = (s, .droppedInspCap) := by
          simp [stageInspection, hl, hcap]
        rw [hst]
        refine ⟨hs, ⟨[], by simp⟩, rfl, rfl, ?_⟩
        intro k j hkj
        simp at hkj
      · have hst : stageInspection cfg s r camis d =
            (stageViolation cfg (registerInsp cfg s r camis d) r s.nextInspId,
             .processed (inspKeyOf r camis d) s.nextInspId) := by
          simp [stageInspection, hl, hcap]
        have hnotmem : s.nextInspId ∉ s.idx.map Prod.snd := by
          intro hmem
          rcases List.mem_map.mp hmem with ⟨p, hp, hpe⟩
          have hplt : p.2 < s.nextInspId := by
            refine hs.idLt p.1 p.2 ?_
            rw [Prod.mk.eta]
            exact hp
          rw [hpe] at hplt
          exact lt_irrefl _ hplt
        have hS2 : ExtInv cfg (registerInsp cfg s r camis d) := by
          refine ⟨?_, ?_, ?_, ?_, ?_, ?_, ?_, ?_, ?_⟩
          · simp only [registerInsp, List.map_append, List.map_cons, List.map_nil]
            exact nodup_app_one _ _ hs.keysNodup (lookupIdx_none_not_mem _ _ hl)
          · simp only [registerInsp, List.map_append, List.map_cons, List.map_nil]
            exact nodup_app_one _ _ hs.idsNodup hnotmem
          · intro k j hmem
            simp only [registerInsp, List.mem_append, List.mem_singleton] at hmem
            simp only [registerInsp]
            rcases hmem with hmem | hmem
            · exact Nat.lt_succ_of_lt (hs.idLt k j hmem)
            · have hj : j = s.nextInspId := congrArg Prod.snd hmem
              rw [hj]
              exact Nat.lt_succ_self _
          · simp only [registerInsp, inspEmit, List.map_append, List.map_cons, List.map_nil]
            rw [hs.outIds]
          · intro c hc
            exact hs.seenRest c hc
          · intro ir hir
            simp only [registerInsp, List.mem_append, List.mem_singleton] at hir
            rcases hir with hir | hir
            · exact hs.inspRef ir hir
            · subst hir
              simp only [registerInsp, inspEmit]
              exact hcamis
          · intro vr hv
            have hold := hs.violRef vr hv
            simp only [registerInsp, List.map_append]
            exact List.mem_append_left _ hold
          · exact hs.restLen
          · intro m hm
            exact hs.seenCap m hm
        rw [hst]
        obtain ⟨f1, f2, f3, f4, f5, f6⟩ :=
          stageViolation_fields cfg (registerInsp cfg s r camis d) r s.nextInspId
        have hmem2 : s.nextInspId ∈ (registerInsp cfg s r camis d).inspOut.map InspRow.id := by
          simp [registerInsp, inspEmit]
        refine ⟨stageViolation_inv cfg (registerInsp cfg s r camis d) r s.nextInspId hS2 hmem2,
          ⟨[(inspKeyOf r camis d, s.nextInspId)], ?_⟩, ?_, ?_, ?_⟩
        · rw [f1]
          rfl
        · rw [f4]
          rfl
        · rw [f3]
          rfl
        · intro k j hkj
          simp only [ExtOutcome.processed.injEq] at hkj
          rw [f1, ← hkj.1, ← hkj.2]
          simp only [registerInsp]
          rw [lookupIdx_append, hl]
          simp [lookupIdx]

theorem processRow_spec (cfg : ExtConfig) (s : ExtState) (r : RawRow)
    (hs : ExtInv cfg s) :
    ExtInv cfg (processRow cfg s r).1
    ∧ (∃ t, (processRow cfg s r).1.idx = s.idx ++ t)
    ∧ (∃ u, (processRow cfg s r).1.seen = s.seen ++ u)
    ∧ (∀ k i, (processRow cfg s r).2 = ExtOutcome.processed k i →
        lookupIdx (processRow cfg s r).1.idx k = some i)
    ∧ (admissibleRow cfg r = true → ∀ m : Int, cfg.maxRestaurants = some m →
        0 < m → (processRow cfg s r).1.seen ≠ []) := by
  cases hd : parseDateMDY r.inspectionDate with
  | none =>
      have hp : processRow cfg s r =
          ({ s with dateFilteredOut := s.dateFilteredOut + 1 }, .droppedDate) := by
        simp [processRow, hd]
      rw [hp]
      refine ⟨⟨hs.keysNodup, hs.idsNodup, hs.idLt, hs.outIds, hs.seenRest, hs.inspRef,
        hs.violRef, hs.restLen, hs.seenCap⟩, ⟨[], by simp⟩, ⟨[], by simp⟩, ?_, ?_⟩
      · intro k i h
        simp at h
      · intro hadm
        simp [admissibleRow, hd] at hadm
  | some d =>
      by_cases hr : dateInRange cfg d = true
      · cases hb : normalizeBoro r.boro with
        | none =>
            have hp : processRow cfg s r =
                ({ s with boroFilteredOut := s.boroFilteredOut + 1 }, .droppedInvalid) := by
              simp [processRow, hd, hr, hb]
            rw [hp]
            refine ⟨⟨hs.keysNodup, hs.idsNodup, hs.idLt, hs.outIds, hs.seenRest, hs.inspRef,
              hs.violRef, hs.restLen, hs.seenCap⟩, ⟨[], by simp⟩, ⟨[], by simp⟩, ?_, ?_⟩
            · intro k i h
              simp at h
            · intro hadm
              simp [admissibleRow, hd, hb] at hadm
        | some boro =>
            by_cases hcd : pyStrip r.camis = "" ∨ pyStrip r.dba = ""
            · have hp : processRow cfg s r =
                  ({ s with boroFilteredOut := s.boroFilteredOut + 1 }, .droppedInvalid) := by
                simp [processRow, hd, hr, hb, hcd]
              rw [hp]
              refine ⟨⟨hs.keysNodup, hs.idsNodup, hs.idLt, hs.outIds, hs.seenRest, hs.inspRef,
                hs.violRef, hs.restLen, hs.seenCap⟩, ⟨[], by simp⟩, ⟨[], by simp⟩, ?_, ?_⟩
              · intro k i h
                simp at h
              · intro hadm
                simp [admissibleRow, hd, hr, hb] at hadm
                rcases hcd with h | h
                · exact absurd h hadm.1
                · exact absurd h hadm.2
            · by_cases hmem : pyStrip r.camis ∈ s.seen
              · have hp : processRow cfg s r =
                    stageInspection cfg s r (pyStrip r.camis) d := by
                  simp [processRow, hd, hr, hb, hcd, hmem]
                rw [hp]
                obtain ⟨hinv, ⟨t, hidx⟩, hseen, hrest, hproc⟩ :=
                  stageInspection_inv cfg s r (pyStrip r.camis) d hs (hs.seenRest _ hmem)
                refine ⟨hinv, ⟨t, hidx⟩, ⟨[], by rw [hseen]; simp⟩, hproc, ?_⟩
                intro _ m hm h0
                rw [hseen]
                exact List.ne_nil_of_mem hmem
              · by_cases hcap : restCapReached cfg s = true
                · have hp : processRow cfg s r = (s, .droppedRestCap) := by
                    simp [processRow, hd, hr, hb, hcd, hmem, hcap]
                  rw [hp]
                  refine ⟨hs, ⟨[], by simp⟩, ⟨[], by simp⟩, ?_, ?_⟩
                  · intro k i h
                    simp at h
                  · intro hadm m hm h0 hnil
                    simp only [restCapReached, hm] at hcap
                    rw [decide_eq_true_eq] at hcap
                    rw [hnil] at hcap
                    simp at hcap
                    omega
                · have hp : processRow cfg s r =
                      stageInspection cfg (registerRest cfg s r boro) r (pyStrip r.camis) d := by
                    simp [processRow, hd, hr, hb, hcd, hmem, hcap]
                  have hS1 : ExtInv cfg (registerRest cfg s r boro) := by
                    refine ⟨hs.keysNodup, hs.idsNodup, hs.idLt, hs.outIds, ?_, ?_,
                      hs.violRef, ?_, ?_⟩
                    · intro c hc
                      simp only [registerRest, List.mem_append, List.mem_singleton] at hc
                      simp only [registerRest, List.map_append, List.map_cons, List.map_nil]
                      rcases hc with hc | hc
                      · exact List.mem_append_left _ (hs.seenRest c hc)
                      · subst hc
                        apply List.mem_append_right
                        simp [mkRestRow]
                    · intro ir hir
                      simp only [registerRest, List.map_append]
                      exact List.mem_append_left _ (hs.inspRef ir hir)
                    · simp only [registerRest, List.length_append, List.length_singleton]
                      rw [hs.restLen]
                    · intro m hm
                      simp only [registerRest, List.length_append, List.length_singleton]
                      simp only [restCapReached, hm] at hcap
                      rw [decide_eq_true_eq] at hcap
                      have h1 : (s.seen.length : Int) < m := lt_of_not_le hcap
                      have h2 : ((s.seen.length + 1 : Nat) : Int) ≤ m := by
                        push_cast
                        omega
                      exact le_trans h2 (le_max_left m 0)
                  obtain ⟨hinv, ⟨t, hidx⟩, hseen2, hrest2, hproc⟩ :=
                    stageInspection_inv cfg (registerRest cfg s r boro) r (pyStrip r.camis) d
                      hS1 (by simp [registerRest, mkRestRow])
                  rw [hp]
                  refine ⟨hinv, ⟨t, hidx⟩, ⟨[pyStrip r.camis], by rw [hseen2]; rfl⟩, hproc, ?_⟩
                  intro hadm m hm h0
                  rw [hseen2]
                  simp [registerRest]
      · have hp : processRow cfg s r =
            ({ s with dateFilteredOut := s.dateFilteredOut + 1 }, .droppedDate) := by
          simp [processRow, hd, hr]
        rw [hp]
        refine ⟨⟨hs.keysNodup, hs.idsNodup, hs.idLt, hs.outIds, hs.seenRest, hs.inspRef,
          hs.violRef, hs.restLen, hs.seenCap⟩, ⟨[], by simp⟩, ⟨[], by simp⟩, ?_, ?_⟩
        · intro k i h
          simp at h
        · intro hadm
          simp [admissibleRow, hd, hr] at hadm

theorem extractGo_spec (cfg : ExtConfig) :
    ∀ (rows : List RawRow) (s : ExtState), ExtInv cfg s →
      ExtInv cfg (extractGo cfg s rows).1
      ∧ (∃ t, (extractGo cfg s rows).1.idx = s.idx ++ t)
      ∧ (∃ u, (extractGo cfg s rows).1.seen = s.seen ++ u)
      ∧ (∀ p k i, (extractGo cfg s rows).2.get? p = some (.processed k i) →
          lookupIdx (extractGo cfg s rows).1.idx k = some i) := by
  intro rows
  induction rows with
  | nil =>
      intro s hs
      refine ⟨hs, ⟨[], by simp [extractGo]⟩, ⟨[], by simp [extractGo]⟩, ?_⟩
      intro p k i h
      simp [extractGo] at h
  | cons r rs ih =>
      intro s hs
      have hs1 : ExtInv cfg { s with scanned := s.scanned + 1 } :=
        ⟨hs.keysNodup, hs.idsNodup, hs.idLt, hs.outIds, hs.seenRest, hs.inspRef,
         hs.violRef, hs.restLen, hs.seenCap⟩
      by_cases hlim : limitHit cfg (s.scanned + 1) = true
      · have hg : extractGo cfg s (r :: rs) =
            ({ s with scanned := s.scanned + 1, limited := true }, []) := by
          simp [extractGo, hlim]
        rw [hg]
        refine ⟨⟨hs.keysNodup, hs.idsNodup, hs.idLt, hs.outIds, hs.seenRest, hs.inspRef,
          hs.violRef, hs.restLen, hs.seenCap⟩, ⟨[], by simp⟩, ⟨[], by simp⟩, ?_⟩
        intro p k i h
        simp at h
      · have hg : extractGo cfg s (r :: rs) =
            ((extractGo cfg (processRow cfg { s with scanned := s.scanned + 1 } r).1 rs).1,
             (processRow cfg { s with scanned := s.scanned + 1 } r).2 ::
               (extractGo cfg (processRow cfg { s with scanned := s.scanned + 1 } r).1 rs).2) := by
          simp [extractGo, hlim]
        obtain ⟨hinv2, ⟨t2, hidx2⟩, ⟨u2, hseen2⟩, hproc2, _⟩ :=
          processRow_spec cfg { s with scanned := s.scanned + 1 } r hs1
        obtain ⟨hinv3, ⟨t3, hidx3⟩, ⟨u3, hseen3⟩, hproc3⟩ :=
          ih (processRow cfg { s with scanned := s.scanned + 1 } r).1 hinv2
        rw [hg]
        refine ⟨hinv3, ⟨t2 ++ t3, ?_⟩, ⟨u2 ++ u3, ?_⟩, ?_⟩
        · rw [hidx3, hidx2]
          simp [List.append_assoc]
        · rw [hseen3, hseen2]
          simp [List.append_assoc]
        · intro p k i h
          cases p with
          | zero =>
              simp only [List.get?_cons_zero, Option.some.injEq] at h
              have hl := hproc2 k i h
              rw [hidx3, lookupIdx_append, hl]
          | succ p =>
              simp only [List.get?_cons_succ] at h
              exact hproc3 p k i h

theorem extractGo_seen_nonempty (cfg : ExtConfig) (mm : Int)
    (hnl : cfg.limit = none) (hm : cfg.maxRestaurants = some mm) (h0 : 0 < mm) :
    ∀ (rows : List RawRow) (s : ExtState), ExtInv cfg s →
      (∃ r ∈ rows, admissibleRow cfg r = true) →
      (extractGo cfg s rows).1.seen ≠ [] := by
  intro rows
  induction rows with
  | nil =>
      intro s hs hex
      simp at hex
  | cons r rs ih =>
      intro s hs hex
      have hs1 : ExtInv cfg { s with scanned := s.scanned + 1 } :=
        ⟨hs.keysNodup, hs.idsNodup, hs.idLt, hs.outIds, hs.seenRest, hs.inspRef,
         hs.violRef, hs.restLen, hs.seenCap⟩
      have hlim : limitHit cfg (s.scanned + 1) = false := by
        simp [limitHit, hnl]
      have hg : extractGo cfg s (r :: rs) =
          ((extractGo cfg (processRow cfg { s with scanned := s.scanned + 1 } r).1 rs).1,
           (processRow cfg { s with scanned := s.scanned + 1 } r).2 ::
             (extractGo cfg (processRow cfg { s with scanned := s.scanned + 1 } r).1 rs).2) := by
        simp [extractGo, hlim]
      rw [hg]
      obtain ⟨hinv2, _, _, _, hne⟩ :=
        processRow_spec cfg { s with scanned := s.scanned + 1 } r hs1
      rcases hex with ⟨r0, hr0mem, hr0⟩
      rcases List.mem_cons.mp hr0mem with he | hm2
      · subst he
        have hba : (processRow cfg { s with scanned := s.scanned + 1 } r0).1.seen ≠ [] :=
          hne hr0 mm hm h0
        obtain ⟨_, _, ⟨u, hseen⟩, _⟩ :=
          extractGo_spec cfg rs (processRow cfg { s with scanned := s.scanned + 1 } r0).1 hinv2
        rw [hseen]
        intro hcon
        rcases List.append_eq_nil.mp hcon with ⟨h1, _⟩
        exact hba h1
      · exact ih (processRow cfg { s with scanned := s.scanned + 1 } r).1 hinv2 ⟨r0, hm2, hr0⟩

/-! ## Claim C2: inspection deduplication -/

/-- Claim C2: within one extraction run, any two processed rows that agree
on the normalized composite key (restaurant key, inspection date, type,
action, score as text, grade, grade date) are assigned the identical
synthetic inspection identifier and the inspection record with that
identifier is emitted exactly once; two processed rows that differ in the
key are assigned distinct identifiers. -/
theorem c2_inspection_dedup (cfg : ExtConfig) (rows : List RawRow)
    (p q : Nat) (kp kq : InspKey) (ip iq : Nat)
    (hp : (runExtract cfg rows).2.get? p = some (.processed kp ip))
    (hq : (runExtract cfg rows).2.get? q = some (.processed kq iq)) :
    (kp = kq → ip = iq ∧
      ((runExtract cfg rows).1.inspOut.filter (fun ir => ir.id == ip)).length = 1)
    ∧ (kp ≠ kq → ip ≠ iq) := by
  obtain ⟨hinv, _, _, hlook⟩ := extractGo_spec cfg rows initExtState (extInv_init cfg)
  simp only [runExtract] at hp hq ⊢
  have lp := hlook p kp ip hp
  have lq := hlook q kq iq hq
  constructor
  · intro hk
    subst hk
    rw [lp] at lq
    have hip : ip = iq := Option.some.inj lq
    refine ⟨hip, ?_⟩
    have hpair := lookupIdx_some_mem _ _ _ lp
    have hmemid : ip ∈ (extractGo cfg initExtState rows).1.idx.map Prod.snd :=
      List.mem_map_of_mem Prod.snd hpair
    have hcount : ((extractGo cfg initExtState rows).1.idx.map Prod.snd).count ip = 1 :=
      List.count_eq_one_of_mem hinv.idsNodup hmemid
    have hfc : (List.filter (fun ir => ir.id == ip)
          (extractGo cfg initExtState rows).1.inspOut).length
        = ((extractGo cfg initExtState rows).1.inspOut.map InspRow.id).count ip := by
      rw [List.count, List.countP_map, ← List.countP_eq_length_filter]
      rfl
    rw [hfc, hinv.outIds]
    exact hcount
  · intro hk hcon
    apply hk
    have h1 := lookupIdx_some_mem _ _ _ lp
    have h2 := lookupIdx_some_mem _ _ _ lq
    rw [← hcon] at h2
    exact snd_nodup_key_eq _ hinv.idsNodup kp kq ip h1 h2

/-! ## Claim C10: referential consistency of the extractor output -/

/-- Claim C10: for every input and every cap configuration, the three output
streams of the extractor are referentially consistent: every emitted
inspection record carries the camis of an emitted restaurant record, and
every emitted violation record carries the identifier of an emitted
inspection record; no child is emitted whose parent was suppressed by a
filter or a cap. -/
theorem c10_output_consistency (cfg : ExtConfig) (rows : List RawRow) :
    (∀ ir ∈ (runExtract cfg rows).1.inspOut,
      ir.restrauntCamis ∈ (runExtract cfg rows).1.restOut.map RestRow.camis)
    ∧ (∀ vr ∈ (runExtract cfg rows).1.violOut,
      vr.inspectionId ∈ (runExtract cfg rows).1.inspOut.map InspRow.id) := by
  obtain ⟨hinv, _, _, _⟩ := extractGo_spec cfg rows initExtState (extInv_init cfg)
  exact ⟨hinv.inspRef, hinv.violRef⟩

/-! ## Claim C8: restaurant cap enforcement -/

/-- Claim C8: with the restaurant cap set to one and no input limit, an
input with at least one admissible row yields exactly one emitted restaurant
record; once the cap is reached a row naming an unseen restaurant is dropped
silently, leaving the state unchanged, while a row of the already admitted
restaurant continues through the inspection and violation stages. -/
theorem c8_restaurant_cap (cfg : ExtConfig) (rows : List RawRow)
    (hm : cfg.maxRestaurants = some 1) (hnl : cfg.limit = none)
    (hex : ∃ r ∈ rows, admissibleRow cfg r = true) :
    (runExtract cfg rows).1.restOut.length = 1
    ∧ (∀ (s : ExtState) (r : RawRow), admissibleRow cfg r = true →
        pyStrip r.camis ∉ s.seen → restCapReached cfg s = true →
        processRow cfg s r = (s, .droppedRestCap))
    ∧ (∀ (s : ExtState) (r : RawRow), admissibleRow cfg r = true →
        pyStrip r.camis ∈ s.seen →
        (processRow cfg s r).2 = .droppedInspCap
        ∨ ∃ k i, (processRow cfg s r).2 = .processed k i) := by
  obtain ⟨hinv, _, _, _⟩ := extractGo_spec cfg rows initExtState (extInv_init cfg)
  have hne := extractGo_seen_nonempty cfg 1 hnl hm (by omega) rows initExtState
    (extInv_init cfg) hex
  refine ⟨?_, ?_, ?_⟩
  · have hlen := hinv.restLen
    have hcap := hinv.seenCap 1 hm
    have hpos : 0 < (extractGo cfg initExtState rows).1.seen.length :=
      List.length_pos.mpr hne
    have hle : ((extractGo cfg initExtState rows).1.seen.length : Int) ≤ 1 := by
      simpa using hcap
    simp only [runExtract]
    rw [hlen]
    omega
  · intro s r hadm hmem hcap
    rcases hadmDecomp : parseDateMDY r.inspectionDate with _ | d
    · simp [admissibleRow, hadmDecomp] at hadm
    · have hr : dateInRange cfg d = true := by
        simp [admissibleRow, hadmDecomp] at hadm
        exact hadm.1.1.1
      rcases hbv : normalizeBoro r.boro with _ | boro
      · simp [admissibleRow, hadmDecomp, hbv] at hadm
      · have hcd : ¬ (pyStrip r.camis = "" ∨ pyStrip r.dba = "") := by
          simp [admissibleRow, hadmDecomp, hbv] at hadm
          intro hcon
          rcases hcon with h | h
          · exact hadm.1.2 h
          · exact hadm.2 h
        simp [processRow, hadmDecomp, hr, hbv, hcd, hmem, hcap]
  · intro s r hadm hmem
    rcases hadmDecomp : parseDateMDY r.inspectionDate with _ | d
    · simp [admissibleRow, hadmDecomp] at hadm
    · have hr : dateInRange cfg d = true := by
        simp [admissibleRow, hadmDecomp] at hadm
        exact hadm.1.1.1
      rcases hbv : normalizeBoro r.boro with _ | boro
      · simp [admissibleRow, hadmDecomp, hbv] at hadm
      · have hcd : ¬ (pyStrip r.camis = "" ∨ pyStrip r.dba = "") := by
          simp [admissibleRow, hadmDecomp, hbv] at hadm
          intro hcon
          rcases hcon with h | h
          · exact hadm.1.2 h
          · exact hadm.2 h
        have hp : processRow cfg s r = stageInspection cfg s r (pyStrip r.camis) d := by
          simp [processRow, hadmDecomp, hr, hbv, hcd, hmem]
        rw [hp]
        cases hl : lookupIdx s.idx (inspKeyOf r (pyStrip r.camis) d) with
        | some i =>
            right
            refine ⟨inspKeyOf r (pyStrip r.camis) d, i, ?_⟩
            simp [stageInspection, hl]
        | none =>
            by_cases hic : inspCapReached cfg s = true
            · left
              simp [stageInspection, hl, hic]
            · right
              refine ⟨inspKeyOf r (pyStrip r.camis) d, s.nextInspId, ?_⟩
              simp [stageInspection, hl, hic]

/-! ## Concrete witness inputs -/

/-- Raw row matching the positive scenario of the specification. -/
def w2rowA : RawRow :=
  ⟨"40001234", "Test Diner", "MANHATTAN", "123", "Main St", "10001", "(212) 555-1234",
   "American", "01/15/2023", "Cycle Inspection", "Violations were cited", "13", "A",
   "01/15/2023", "10F", "Some description", "Not Critical"⟩

/-- Second raw row agreeing with the first on the whole composite inspection
key but carrying a different violation. -/
def w2rowB : RawRow :=
  ⟨"40001234", "Test Diner", "MANHATTAN", "123", "Main St", "10001", "(212) 555-1234",
   "American", "01/15/2023", "Cycle Inspection", "Violations were cited", "13", "A",
   "01/15/2023", "04L", "Other description", "Critical"⟩

/-- Composite key shared by the two witness rows. -/
def w2key : InspKey :=
  ⟨"40001234", "2023-01-15", "Cycle Inspection", "Violations were cited", "13", "A",
   "2023-01-15"⟩

theorem c2_witness :
    (runExtract w6cfg [w2rowA, w2rowB]).2.get? 0 = some (.processed w2key 1)
    ∧ (runExtract w6cfg [w2rowA, w2rowB]).2.get? 1 = some (.processed w2key 1)
    ∧ (1 = 1 ∧ ((runExtract w6cfg [w2rowA, w2rowB]).1.inspOut.filter
        (fun ir => ir.id == 1)).length = 1) :=
  ⟨by decide, by decide,
   (c2_inspection_dedup w6cfg [w2rowA, w2rowB] 0 1 w2key w2key 1 1
     (by decide) (by decide)).1 rfl⟩

/-- Inspection row naming a parent restaurant key that is not in storage. -/
def w3row : IRowL :=
  ⟨"7", "40009999", "2023-01-15", "Cycle Inspection", "Some action", "13", "A", ""⟩

theorem c3_witness :
    blankToNone w3row.restrauntCamis = some "40009999"
    ∧ (∃ cause, parseIRow (fun _ => none) w3row = .error cause) := by
  refine ⟨by decide, ?_⟩
  obtain ⟨c, h1, _, _⟩ :=
    c3_referential_integrity.1 (fun _ => none) w3row "40009999" (by decide) rfl
  exact ⟨c, h1⟩

/-- Valid restaurants.csv row for the rollback witness. -/
def w4restRow : RRowL :=
  ⟨"40001234", "Test Diner", "Manhattan", "123", "Main St", "10001", "2125551234",
   "American"⟩

/-- Inspections.csv row that imports cleanly against the witness restaurant. -/
def w4inspRowGood : IRowL :=
  ⟨"1", "40001234", "2023-01-15", "Cycle Inspection", "Some action", "13", "A", ""⟩

/-- Inspections.csv row whose parent restaurant key was never loaded. -/
def w4inspRowBad : IRowL :=
  ⟨"2", "48888888", "2023-01-15", "Cycle Inspection", "Some action", "", "", ""⟩

/-- Restaurant table after the committed restaurant phase of the witness
run. -/
def w4r1 : String → Option RestVal :=
  upsertT emptyStore.restaurants "40001234"
    ⟨"Test Diner", "Manhattan", "123", "Main St", some "10001", some "2125551234",
     some "American"⟩

/-- Diagnostic raised by the failing second row of the inspection phase. -/
def w4msg : String :=
  mkMsgI 3 w4inspRowBad
    "Restraunt with CAMIS 48888888 not found. Import restaurants first."

theorem c4_witness :
    handleCmd true emptyStore [w4restRow] [w4inspRowGood, w4inspRowBad] [] =
      (⟨w4r1, emptyStore.inspections, emptyStore.violations⟩, .error w4msg) :=
  c4_strict_phase_rollback.2.1 emptyStore [w4restRow] [w4inspRowGood, w4inspRowBad] []
    w4r1 [] w4msg rfl rfl

theorem c6_witness :
    parseDateMDY w6row.inspectionDate = some ⟨2023, 1, 15⟩
    ∧ ((processRow w6cfg initExtState w6row).1.restOut = initExtState.restOut ++
        [⟨strTake (pyStrip w6row.camis) 10,
          sanitizeText w6cfg.asciiOnly (strTake (pyStrip w6row.dba) 255),
          "Bronx",
          sanitizeText w6cfg.asciiOnly (strTake (pyStrip w6row.building) 20),
          sanitizeText w6cfg.asciiOnly (strTake (pyStrip w6row.street) 255),
          strTake (pyStrip w6row.zipcode) 10,
          cleanPhone w6row.phone,
          sanitizeText w6cfg.asciiOnly (strTake (pyStrip w6row.cuisine) 100)⟩]
      ∧ (processRow w6cfg initExtState w6row).1.inspOut = initExtState.inspOut ++
        [⟨initExtState.nextInspId, strTake (pyStrip w6row.camis) 10,
          isoStr ⟨2023, 1, 15⟩,
          sanitizeText w6cfg.asciiOnly (strTake (pyStrip w6row.inspectionType) 50),
          sanitizeText w6cfg.asciiOnly (strTake (pyStrip w6row.action) 255),
          scoreStrOf w6row, sanitizeText w6cfg.asciiOnly (normalizeGrade w6row.grade),
          gradeDateIsoOf w6row⟩]) :=
  ⟨by decide,
   c6_amended_truncate_first w6cfg initExtState w6row ⟨2023, 1, 15⟩ "Bronx"
     (by decide) (by decide) (by decide) (by decide) (by decide) (by decide)
     (by decide) (by decide) (by decide)⟩

/-- Raw row whose borough value has no mapping. -/
def w7row : RawRow :=
  ⟨"41111111", "Valid Name", "Unknown", "123", "Main St", "10001", "2125551234",
   "American", "01/15/2023", "Cycle Inspection", "Action", "13", "A", "01/15/2023",
   "10F", "Desc", "Not Critical"⟩

theorem c7_witness :
    "Manhattan" ∈ canonicalBoros
    ∧ normalizeBoro "Manhattan" = some "Manhattan"
    ∧ processRow w6cfg initExtState w7row =
        ({ initExtState with boroFilteredOut := initExtState.boroFilteredOut + 1 },
         .droppedInvalid) :=
  ⟨by decide, c7_boro_normalization.1 "Manhattan" (by decide),
   c7_boro_normalization.2.2.2 w6cfg initExtState w7row ⟨2023, 1, 15⟩
     (by decide) (by decide) (by decide)⟩

/-- Extractor configuration with the restaurant cap set to one. -/
def w8cfg : ExtConfig := ⟨⟨2023, 1, 1⟩, ⟨2025, 12, 31⟩, false, none, some 1, none, none⟩

/-- Second witness row naming a different restaurant. -/
def w8rowB : RawRow :=
  ⟨"45555555", "Other Diner", "QUEENS", "9", "Side St", "11101", "7185551234",
   "Pizza", "02/20/2023", "Cycle Inspection", "Action", "20", "B", "02/20/2023",
   "08A", "Desc", "Critical"⟩

theorem c8_witness :
    admissibleRow w8cfg w2rowA = true
    ∧ (runExtract w8cfg [w2rowA, w8rowB]).1.restOut.length = 1 :=
  ⟨by decide,
   (c8_restaurant_cap w8cfg [w2rowA, w8rowB] rfl rfl
     ⟨w2rowA, by decide, by decide⟩).1⟩

theorem c9_witness :
    parseRRow w9row = .error "Missing camis"
    ∧ (loopU parseRRow mkMsgR true (fun _ => none) 2 [w9row] =
        .error (mkMsgR 2 w9row "Missing camis")
      ∧ strHasSub ("Line " ++ Nat.repr 2) (mkMsgR 2 w9row "Missing camis") = true
      ∧ strHasSub w9row.camis (mkMsgR 2 w9row "Missing camis") = true
      ∧ commandExitCode (.error (mkMsgR 2 w9row "Missing camis")) ≠ 0) :=
  ⟨rfl, c9_amended_diagnostics.2.2 w9row "Missing camis" (fun _ => none) 2 [] rfl⟩

/-- Inspection record emitted by the extractor for the scenario row. -/
def w10ir : InspRow :=
  ⟨1, "40001234", "2023-01-15", "Cycle Inspection", "Violations were cited", "13",
   "A", "2023-01-15"⟩

theorem c10_witness :
    w10ir ∈ (runExtract w6cfg [w2rowA]).1.inspOut
    ∧ w10ir.restrauntCamis ∈ (runExtract w6cfg [w2rowA]).1.restOut.map RestRow.camis :=
  ⟨by decide, (c10_output_consistency w6cfg [w2rowA]).1 w10ir (by decide)⟩
